import Mathlib

/-
Verification development for the resilient resource-access core of the
nest-template service: the MySQL query compiler (BaseDialect / MySQLDialect),
the repository facade (Table), the connection driver retry protocol
(MySQLDriver.retryOnConnectionError) and the distributed lease lock
(MutexLock).  Each definition is a shallow embedding of the corresponding
TypeScript function; JavaScript runtime values are modelled by explicit
inductive types, thrown exceptions by `Except String`, and the Redis /
MySQL backends by explicit state passed through the functions.
-/

namespace NT

/-! ## SQL value model (BaseDialect value types)

`SQLValue = string | number | boolean | Date | null | undefined` and
`SQLHolderValue = string | number`.  JavaScript numbers are modelled by
`Int` (no claim depends on fractional values); a `Date` is modelled by its
ISO string, which is exactly what `formatDate` extracts from it. -/

/-- Scalar runtime value that can appear in a query descriptor: a string, a
number, a boolean or a `Date` (modelled by its ISO-8601 rendering). -/
inductive Scalar where
  | s (v : String)
  | i (v : Int)
  | b (v : Bool)
  | date (iso : String)
deriving DecidableEq

/-- Entry of a compiled parameter list (`SQLHolderValue = string | number`).
`hundef` stands for a JavaScript `undefined` smuggled through the source's
unchecked casts (e.g. a missing field in a batch-insert row); it still
occupies one position in the list. -/
inductive Holder where
  | hs (v : String)
  | hn (v : Int)
  | hundef
deriving DecidableEq

/-- Compiled statement: SQL text plus ordered parameter list
(`ValueHolders = { prepare, holders }` in the source). -/
structure ValueHolders where
  prepare : String
  holders : List Holder
deriving DecidableEq

/-- Number of positional placeholder characters in a piece of SQL text. -/
def countQM (sql : String) : Nat := sql.data.count '?'

/-- Model of JavaScript `Array.prototype.join(sep)`. -/
def joinSep (sep : String) : List String → String
  | [] => ""
  | [x] => x
  | x :: y :: rest => x ++ sep ++ joinSep sep (y :: rest)

/-! ## MySQLDialect: value encoding and identifier escaping -/

namespace MySQLDialect

/-- MySQL identifier escaping: wrap in backticks
(`MySQLDialect.escapeIdentifier`). -/
def escapeIdentifier (identifier : String) : String := "`" ++ identifier ++ "`"

/-- MySQL placeholder token (`MySQLDialect.getPlaceholder`, which ignores
its index argument). -/
def getPlaceholder : String := "?"

/-- ISO-8601 date rendering (`BaseDialect.formatDate`, `date.toISOString()`);
a `Date` is modelled by that string, so this is the identity on it. -/
def formatDate (iso : String) : String := iso

/-- Boolean encoding (`BaseDialect.formatBoolean`): `true ↦ 1`, `false ↦ 0`. -/
def formatBoolean (v : Bool) : Int := if v then 1 else 0

/-- Conversion of a scalar to a parameter-list entry
(`BaseDialect.toSQLHolder`): dates via `formatDate`, booleans via
`formatBoolean`, strings and numbers unchanged. -/
def toSQLHolder : Scalar → Holder
  | .date iso => .hs (formatDate iso)
  | .b v => .hn (formatBoolean v)
  | .s v => .hs v
  | .i v => .hn v

/-- Raw pass-through of a scalar into the parameter list, modelling the
source's unchecked `value as string` / `value as number` casts (no
`toSQLHolder` conversion); booleans and dates are rendered by their SQL
encodings. -/
def rawHolder : Scalar → Holder
  | .s v => .hs v
  | .i v => .hn v
  | .b v => .hn (formatBoolean v)
  | .date iso => .hs iso

end MySQLDialect

/-! ## Query operators (`type.ts`: `OperatorMap`, `Operator`)

The operator families of the source's `QueryOperators` union.  Arguments
carry the types the source declares (`ComparisonOperators<T>` scalars,
range operators possibly-array values, string operators strings, null
checks booleans); the source validates array-ness and arity of range
operators at runtime, which is kept, and casts the rest unchecked. -/

/-- Comparison operators (`eq | ne | gt | gte | lt | lte`). -/
inductive CmpOp where
  | eq | ne | gt | gte | lt | lte
deriving DecidableEq

/-- Range operators (`in | notIn | between | notBetween`). -/
inductive RangeOp where
  | inOp | notIn | between | notBetween
deriving DecidableEq

/-- LIKE-family operators (`like | notLike | rlike | notRlike`). -/
inductive LikeOp where
  | like | notLike | rlike | notRlike
deriving DecidableEq

/-- Convenience string operators (`startsWith | endsWith | contains`),
compiled to LIKE with a wildcard-wrapped argument. -/
inductive ConvOp where
  | startsWith | endsWith | contains
deriving DecidableEq

/-- Null-check operators (`isNull | isNotNull`). -/
inductive NullChkOp where
  | isNull | isNotNull
deriving DecidableEq

/-- `OperatorMap` fragment for comparison operators. -/
def cmpSQL : CmpOp → String
  | .eq => "=" | .ne => "!=" | .gt => ">" | .gte => ">=" | .lt => "<" | .lte => "<="

/-- `OperatorMap` fragment for range operators. -/
def rangeSQL : RangeOp → String
  | .inOp => "IN" | .notIn => "NOT IN" | .between => "BETWEEN" | .notBetween => "NOT BETWEEN"

/-- JavaScript key name of a range operator, as interpolated into the
error messages of `createOperatorCondition`. -/
def rangeName : RangeOp → String
  | .inOp => "in" | .notIn => "notIn" | .between => "between" | .notBetween => "notBetween"

/-- `OperatorMap` fragment for LIKE-family operators. -/
def likeSQL : LikeOp → String
  | .like => "LIKE" | .notLike => "NOT LIKE" | .rlike => "RLIKE" | .notRlike => "NOT RLIKE"

/-- Runtime value handed to a range operator: the source checks
`Array.isArray(value)` and rejects non-arrays, so the model distinguishes a
scalar from an array of scalars. -/
inductive OpVal where
  | sc (v : Scalar)
  | arr (vs : List Scalar)
deriving DecidableEq

/-- One `operator: value` entry of a field operator object; the list of
entries of an object follows JavaScript's `Object.keys` insertion order. -/
inductive OpEntry where
  | cmp (op : CmpOp) (v : Scalar)
  | range (op : RangeOp) (v : OpVal)
  | strm (op : LikeOp) (v : String)
  | conv (op : ConvOp) (v : String)
  | nullChk (op : NullChkOp) (v : Bool)
deriving DecidableEq

/-- Value of one field of a query descriptor (`FieldValue`): a literal
scalar, `null`, `undefined`, or an operator object. -/
inductive FieldVal where
  | scalar (v : Scalar)
  | nullv
  | undef
  | ops (entries : List OpEntry)
deriving DecidableEq

namespace MySQLDialect

/-- Model of `MySQLDialect.createOperatorCondition`: compile one operator of
a field operator object into a condition fragment plus parameters.  Range
operators validate array-ness and arity and throw (`Except.error`) exactly
as the source does. -/
def createOperatorCondition (key : String) (e : OpEntry) : Except String ValueHolders :=
  let field := escapeIdentifier key
  match e with
  | .cmp op v =>
      .ok ⟨field ++ " " ++ cmpSQL op ++ " ?", [toSQLHolder v]⟩
  | .range op v =>
      match v with
      | .sc _ => .error (rangeName op ++ " operator requires an array value")
      | .arr vs =>
          match op with
          | .inOp | .notIn =>
              if vs.length = 0 then
                .error (rangeName op ++ " operator requires a non-empty array")
              else
                .ok ⟨field ++ " " ++ rangeSQL op ++ " (" ++
                      joinSep ", " (vs.map fun _ => "?") ++ ")",
                     vs.map toSQLHolder⟩
          | .between | .notBetween =>
              match vs with
              | [mn, mx] =>
                  .ok ⟨field ++ " " ++ rangeSQL op ++ " ? AND ?",
                       [toSQLHolder mn, toSQLHolder mx]⟩
              | _ => .error (rangeName op ++ " operator requires exactly 2 values")
  | .strm op v =>
      .ok ⟨field ++ " " ++ likeSQL op ++ " ?", [.hs v]⟩
  | .conv .startsWith v =>
      .ok ⟨field ++ " LIKE ?", [.hs (v ++ "%")]⟩
  | .conv .endsWith v =>
      .ok ⟨field ++ " LIKE ?", [.hs ("%" ++ v)]⟩
  | .conv .contains v =>
      .ok ⟨field ++ " LIKE ?", [.hs ("%" ++ v ++ "%")]⟩
  | .nullChk .isNull v =>
      .ok (if v then ⟨field ++ " IS NULL", []⟩ else ⟨field ++ " IS NOT NULL", []⟩)
  | .nullChk .isNotNull v =>
      .ok (if v then ⟨field ++ " IS NOT NULL", []⟩ else ⟨field ++ " IS NULL", []⟩)

/-- Loop body of `createFilter` over the operator entries: collect the
non-empty condition fragments and concatenate their parameters in order. -/
def opConditions (key : String) : List OpEntry → Except String (List String × List Holder)
  | [] => .ok ([], [])
  | e :: rest =>
      match createOperatorCondition key e with
      | .error msg => .error msg
      | .ok r =>
          match opConditions key rest with
          | .error msg => .error msg
          | .ok (cs, hs) =>
              if r.prepare ≠ "" then .ok (r.prepare :: cs, r.holders ++ hs)
              else .ok (cs, hs)

/-- Model of `MySQLDialect.createFilter`: compile a single field condition.
Literal scalar becomes an equality, `null` becomes `IS NULL`, `undefined`
is skipped, and an operator object compiles one fragment per operator,
joined with AND and parenthesised when more than one condition results. -/
def createFilter (key : String) (v : FieldVal) : Except String ValueHolders :=
  match v with
  | .nullv => .ok ⟨escapeIdentifier key ++ " IS NULL", []⟩
  | .undef => .ok ⟨"", []⟩
  | .scalar sv => .ok ⟨escapeIdentifier key ++ " = ?", [toSQLHolder sv]⟩
  | .ops entries =>
      match opConditions key entries with
      | .error msg => .error msg
      | .ok (conditions, holders) =>
          match conditions with
          | [] => .ok ⟨"", []⟩
          | [c] => .ok ⟨c, holders⟩
          | _ => .ok ⟨"(" ++ joinSep " AND " conditions ++ ")", holders⟩

end MySQLDialect

/-! ## WHERE descriptors (`type.ts`: `Where`, `WhereCondition`, `LogicalOperators`)

A `Where` is `null`, a raw SQL string, a raw SQL string paired with an
optional positional parameter array (`[sql]` / `[sql, params]`), or an
object mapping field names to `FieldVal`s with optional `AND` / `OR` arrays
of sub-conditions.  Field entries follow `Object.keys` insertion order; the
`AND` / `OR` keys are kept separately because the source extracts them by
name before iterating the remaining keys. -/

/-- WHERE condition descriptor. -/
inductive Where where
  | nullW
  | raw (sql : String)
  | rawP (sql : String) (params : Option (List Holder))
  | obj (fields : List (String × FieldVal)) (andC : Option (List Where)) (orC : Option (List Where))

namespace MySQLDialect

/-- Number of `Object.keys` entries of an object-form descriptor: its plain
fields plus one for each of the `AND` / `OR` keys when present. -/
def objKeyCount (fields : List (String × FieldVal)) (andC orC : Option (List Where)) : Nat :=
  fields.length + (if andC.isSome then 1 else 0) + (if orC.isSome then 1 else 0)

/-- Bracketing test of `createAndConditions`: a member that is a non-null,
non-array object containing an `OR` key is parenthesised. -/
def needsBracketAnd : Where → Bool
  | .obj _ _ (some _) => true
  | _ => false

/-- Bracketing test of `createOrConditions`: a member that is a non-null,
non-array object with more than one key or with an `AND` key is
parenthesised. -/
def needsBracketOr : Where → Bool
  | .obj fields andC orC => decide (objKeyCount fields andC orC > 1) || andC.isSome
  | _ => false

/-- Loop body of `createFieldConditions` over the plain fields of an
object-form descriptor: compile each field with `createFilter`, keep the
non-empty fragments and concatenate parameters in order. -/
def fieldParts : List (String × FieldVal) → Except String (List String × List Holder)
  | [] => .ok ([], [])
  | (k, v) :: rest =>
      match createFilter k v with
      | .error msg => .error msg
      | .ok r =>
          match fieldParts rest with
          | .error msg => .error msg
          | .ok (cs, hs) =>
              if r.prepare ≠ "" then .ok (r.prepare :: cs, r.holders ++ hs)
              else .ok (cs, hs)

/-- Model of `MySQLDialect.createFieldConditions`: the plain fields of an
object descriptor, implicitly ANDed. -/
def createFieldConditions (fields : List (String × FieldVal)) : Except String ValueHolders :=
  match fieldParts fields with
  | .error msg => .error msg
  | .ok (cs, hs) => .ok ⟨joinSep " AND " cs, hs⟩

/-- Stage of `createLogicalWhere` handling the plain field conditions:
when fields are present and compile to a non-empty fragment, it becomes
the first top-level condition. -/
def fieldStage (fields : List (String × FieldVal)) :
    Except String (List String × List Holder) :=
  if fields.length > 0 then
    match createFieldConditions fields with
    | .error msg => .error msg
    | .ok r => if r.prepare ≠ "" then .ok ([r.prepare], r.holders) else .ok ([], [])
  else .ok ([], [])

mutual

/-- Model of `MySQLDialect.createWhere` on a present condition, with
`createLogicalWhere` inlined in the object case: plain fields first, then
the explicit `AND` array, then the `OR` array (parenthesised when sibling
conditions exist), all joined with AND. -/
def createWhereW : Where → Except String ValueHolders
  | .nullW => .ok ⟨"", []⟩
  | .raw sql => .ok ⟨sql, []⟩
  | .rawP sql params => .ok ⟨sql, params.getD []⟩
  | .obj fields andC orC =>
      if objKeyCount fields andC orC = 0 then .ok ⟨"", []⟩
      else
        match fieldStage fields with
        | .error msg => .error msg
        | .ok s1 =>
            match andStage andC s1 with
            | .error msg => .error msg
            | .ok s2 =>
                match orStage orC s2 with
                | .error msg => .error msg
                | .ok s3 => .ok ⟨joinSep " AND " s3.1, s3.2⟩

/-- Stage of `createLogicalWhere` handling the explicit `AND` array: its
members are compiled recursively and, when the join is non-empty, appended
as one further top-level condition. -/
def andStage : Option (List Where) → List String × List Holder →
    Except String (List String × List Holder)
  | some l, s1 =>
      if l.length > 0 then
        match andParts l with
        | .error msg => .error msg
        | .ok (ps, hs) =>
            let rp := joinSep " AND " ps
            if rp ≠ "" then .ok (s1.1 ++ [rp], s1.2 ++ hs) else .ok s1
      else .ok s1
  | none, s1 => .ok s1

/-- Stage of `createLogicalWhere` handling the `OR` array: its members are
compiled recursively and the joined disjunction is parenthesised exactly
when earlier top-level conditions exist. -/
def orStage : Option (List Where) → List String × List Holder →
    Except String (List String × List Holder)
  | some l, s2 =>
      if l.length > 0 then
        match orParts l with
        | .error msg => .error msg
        | .ok (ps, hs) =>
            let rp := joinSep " OR " ps
            if rp ≠ "" then
              .ok (s2.1 ++ [if s2.1.length > 0 then "( " ++ rp ++ " )" else rp], s2.2 ++ hs)
            else .ok s2
      else .ok s2
  | none, s2 => .ok s2

/-- Loop body of `createAndConditions`: recursively compile each member of
an `AND` array, keeping non-empty fragments, parenthesising members that
contain an `OR` key. -/
def andParts : List Where → Except String (List String × List Holder)
  | [] => .ok ([], [])
  | c :: rest =>
      match createWhereW c with
      | .error msg => .error msg
      | .ok r =>
          match andParts rest with
          | .error msg => .error msg
          | .ok (ps, hs) =>
              if r.prepare ≠ "" then
                .ok ((if needsBracketAnd c then "( " ++ r.prepare ++ " )" else r.prepare) :: ps,
                     r.holders ++ hs)
              else
                .ok (ps, hs)

/-- Loop body of `createOrConditions`: recursively compile each member of an
`OR` array, keeping non-empty fragments, parenthesising members that have
multiple keys or an `AND` key. -/
def orParts : List Where → Except String (List String × List Holder)
  | [] => .ok ([], [])
  | c :: rest =>
      match createWhereW c with
      | .error msg => .error msg
      | .ok r =>
          match orParts rest with
          | .error msg => .error msg
          | .ok (ps, hs) =>
              if r.prepare ≠ "" then
                .ok ((if needsBracketOr c then "( " ++ r.prepare ++ " )" else r.prepare) :: ps,
                     r.holders ++ hs)
              else
                .ok (ps, hs)

end

/-- Model of `MySQLDialect.createAndConditions` (the AND array joined). -/
def createAndConditions (l : List Where) : Except String ValueHolders :=
  match andParts l with
  | .error msg => .error msg
  | .ok (ps, hs) => .ok ⟨joinSep " AND " ps, hs⟩

/-- Model of `MySQLDialect.createOrConditions` (the OR array joined). -/
def createOrConditions (l : List Where) : Except String ValueHolders :=
  match orParts l with
  | .error msg => .error msg
  | .ok (ps, hs) => .ok ⟨joinSep " OR " ps, hs⟩

/-- Model of `MySQLDialect.createWhere`: `null`/`undefined` and the empty
object give an empty result; raw strings and `[sql, params]` pairs pass
through; object descriptors go through the logical compilation. -/
def createWhere : Option Where → Except String ValueHolders
  | none => .ok ⟨"", []⟩
  | some w => createWhereW w

end MySQLDialect

/-! ## Update descriptors (`type.ts`: `UpdateOperators`, `UpdateFieldValue`) -/

/-- Update operators (`set | increment | decrement | multiply | divide`). -/
inductive UpdateOp where
  | set | increment | decrement | multiply | divide
deriving DecidableEq

/-- Value of one field of an update descriptor (`UpdateFieldValue`): a
literal scalar, `null`, `undefined`, or an update-operator object (of which
the source evaluates only the first key). -/
inductive UpdateVal where
  | scalar (v : Scalar)
  | nullv
  | undef
  | ops (entries : List (UpdateOp × Scalar))
deriving DecidableEq

namespace MySQLDialect

/-- Model of `MySQLDialect.createDataFilter`: compile one UPDATE assignment.
Literal scalar assigns a placeholder, `null` assigns the NULL literal
(without a placeholder), `undefined` is skipped, and an operator object
uses only its first operator; arithmetic operators push their argument
through the source's raw `as number` cast. -/
def createDataFilter (key : String) (v : UpdateVal) : ValueHolders :=
  let field := escapeIdentifier key
  match v with
  | .nullv => ⟨field ++ " = NULL", []⟩
  | .undef => ⟨"", []⟩
  | .scalar sv => ⟨field ++ " = ?", [toSQLHolder sv]⟩
  | .ops [] => ⟨"", []⟩
  | .ops ((op, ov) :: _) =>
      match op with
      | .set => ⟨field ++ " = ?", [toSQLHolder ov]⟩
      | .increment => ⟨field ++ " = " ++ field ++ " + ?", [rawHolder ov]⟩
      | .decrement => ⟨field ++ " = " ++ field ++ " - ?", [rawHolder ov]⟩
      | .multiply => ⟨field ++ " = " ++ field ++ " * ?", [rawHolder ov]⟩
      | .divide => ⟨field ++ " = " ++ field ++ " / ?", [rawHolder ov]⟩

/-- ASCII upper-casing of JavaScript `toUpperCase`, evaluated characterwise
(the source only compares the result with `ASC` / `DESC`). -/
def jsToUpper (s : String) : String := ⟨s.data.map Char.toUpper⟩

/-- Model of `MySQLDialect.createOrder`: keep entries whose upper-cased
direction is `ASC` or `DESC` and join them with commas. -/
def createOrder (order : Option (List (String × String))) : String :=
  match order with
  | none => ""
  | some entries =>
      joinSep ", " (entries.filterMap fun e =>
        let direction := jsToUpper e.2
        if direction = "ASC" ∨ direction = "DESC" then
          some (escapeIdentifier e.1 ++ " " ++ direction)
        else
          none)

/-- JOIN types of `type.ts` (`JoinType`). -/
inductive JoinType where
  | inner | left | right | full | cross
deriving DecidableEq

/-- SQL keyword of a JOIN type. -/
def joinTypeSQL : JoinType → String
  | .inner => "INNER" | .left => "LEFT" | .right => "RIGHT" | .full => "FULL" | .cross => "CROSS"

/-- One JOIN definition (`string | JoinConfig`): either a bare ON-condition
string (INNER JOIN) or a configuration with optional type, `on` condition
and `using` column list. -/
inductive JoinSpec where
  | onStr (cond : String)
  | cfg (t : Option JoinType) (onC : Option String) (usingC : Option (List String))
deriving DecidableEq

/-- Compilation of a single entry of a join definition object; the declared
`JoinType` union makes the source's valid-type check always pass, so it is
not repeated here. -/
def joinPart (tableName : String) : JoinSpec → Except String String
  | .onStr cond =>
      .ok (" INNER JOIN " ++ escapeIdentifier tableName ++ " ON " ++ cond)
  | .cfg t onC usingC =>
      let ty := t.getD .inner
      let joinClause := " " ++ joinTypeSQL ty ++ " JOIN " ++ escapeIdentifier tableName
      if ty = .cross then .ok joinClause
      else
        match usingC with
        | some us =>
            if us.length = 0 then
              .error ("JOIN \"using\" must be a non-empty array for table \"" ++
                tableName ++ "\"")
            else
              .ok (joinClause ++ " USING (" ++ joinSep ", " (us.map escapeIdentifier) ++ ")")
        | none =>
            match onC with
            | some onS =>
                if onS = "" then
                  .error ("JOIN on table \"" ++ tableName ++
                    "\" requires either \"on\" or \"using\" condition (or use type: \"CROSS\")")
                else
                  .ok (joinClause ++ " ON " ++ onS)
            | none =>
                .error ("JOIN on table \"" ++ tableName ++
                  "\" requires either \"on\" or \"using\" condition (or use type: \"CROSS\")")

/-- Model of the loop of `MySQLDialect.createJoin` over the entries of a
join definition object, concatenating the clauses. -/
def joinLoop : List (String × JoinSpec) → Except String String
  | [] => .ok ""
  | (tableName, spec) :: rest =>
      match joinPart tableName spec with
      | .error msg => .error msg
      | .ok part =>
          match joinLoop rest with
          | .error msg => .error msg
          | .ok restStr => .ok (part ++ restStr)

/-- Model of `MySQLDialect.createJoin`. -/
def createJoin (join : Option (List (String × JoinSpec))) : Except String String :=
  match join with
  | none => .ok ""
  | some l => if l.length = 0 then .ok "" else joinLoop l

/-- Split a character list at every occurrence of `c`, like JavaScript
`String.prototype.split` with a one-character separator. -/
def splitCharList (c : Char) : List Char → List (List Char)
  | [] => [[]]
  | x :: rest =>
      match splitCharList c rest with
      | [] => [[]]
      | hd :: tl => if x = c then [] :: hd :: tl else (x :: hd) :: tl

/-- Model of JavaScript `groupByField.split('.')`. -/
def splitDot (s : String) : List String := (splitCharList '.' s.data).map List.asString

/-- Escaping of one GROUP BY field: a dotted `table.field` name is split and
each part escaped separately. -/
def escapeGroupField (f : String) : String :=
  if f.data.contains '.' then joinSep "." ((splitDot f).map escapeIdentifier)
  else escapeIdentifier f

/-- GROUP BY descriptor (`GroupBy = string | string[]`). -/
inductive GroupBySpec where
  | str (s : String)
  | arr (l : List String)
deriving DecidableEq

/-- Model of `MySQLDialect.createGroupBy`. -/
def createGroupBy : Option GroupBySpec → String
  | none => ""
  | some (.str s) => escapeGroupField s
  | some (.arr l) => if l.length = 0 then "" else joinSep ", " (l.map escapeGroupField)

/-- HAVING descriptor (`Having`): a raw string, a `[sql]` / `[sql, params]`
array, or an object of field conditions. -/
inductive Having where
  | str (sql : String)
  | arrH (sql : String) (params : Option (List Holder))
  | obj (fields : List (String × FieldVal))
deriving DecidableEq

/-- Model of `MySQLDialect.createHaving`; the object form runs the same
field loop as `createFieldConditions`. -/
def createHaving : Option Having → Except String ValueHolders
  | none => .ok ⟨"", []⟩
  | some (.str sql) => .ok ⟨sql, []⟩
  | some (.arrH sql params) => .ok ⟨sql, params.getD []⟩
  | some (.obj fields) =>
      match fieldParts fields with
      | .error msg => .error msg
      | .ok (cs, hs) => .ok ⟨joinSep " AND " cs, hs⟩

/-- Model of `MySQLDialect.buildLimitOffset` (MySQL `LIMIT offset, limit`
syntax when an offset is present). -/
def buildLimitOffset (limit offset : Int) : String :=
  if offset > 0 then " LIMIT " ++ toString offset ++ ", " ++ toString limit
  else " LIMIT " ++ toString limit

/-- Model of `BaseDialect.buildSelect`: assemble JOIN, WHERE, GROUP BY,
HAVING, ORDER BY and LIMIT/OFFSET in canonical order, concatenating the
parameter lists in text order. -/
def buildSelect (table : String) (fields : String) (wh : Option Where)
    (order : Option (List (String × String))) (limit : Option Int) (offset : Int)
    (join : Option (List (String × JoinSpec))) (groupBy : Option GroupBySpec)
    (having : Option Having) : Except String ValueHolders :=
  match createJoin join with
  | .error msg => .error msg
  | .ok joinStr =>
      match createWhere wh with
      | .error msg => .error msg
      | .ok whereResult =>
          match createHaving having with
          | .error msg => .error msg
          | .ok havingResult =>
              let sql0 := "SELECT " ++ fields ++ " FROM " ++ escapeIdentifier table
              let sql1 := if joinStr ≠ "" then sql0 ++ joinStr else sql0
              let (sql2, holders2) :=
                if whereResult.prepare ≠ "" then
                  (sql1 ++ " WHERE " ++ whereResult.prepare, whereResult.holders)
                else (sql1, [])
              let groupByStr := createGroupBy groupBy
              let sql3 := if groupByStr ≠ "" then sql2 ++ " GROUP BY " ++ groupByStr else sql2
              let (sql4, holders4) :=
                if havingResult.prepare ≠ "" then
                  (sql3 ++ " HAVING " ++ havingResult.prepare, holders2 ++ havingResult.holders)
                else (sql3, holders2)
              let orderStr := createOrder order
              let sql5 := if orderStr ≠ "" then sql4 ++ " ORDER BY " ++ orderStr else sql4
              let sql6 := (match limit with
                | some n => if n > 0 then sql5 ++ buildLimitOffset n offset else sql5
                | none => sql5)
              .ok ⟨sql6, holders4⟩

/-- Model of `BaseDialect.buildInsert`: one placeholder per field of the
first row for every row; a field missing from a later row passes the
JavaScript `undefined` through to the parameter list. -/
def buildInsert (table : String) (data : List (List (String × Scalar))) :
    Except String ValueHolders :=
  match data with
  | [] => .error "Insert data cannot be empty"
  | first :: _ =>
      let fields := first.map (·.1)
      let escapedFields := fields.map escapeIdentifier
      let sql := "INSERT INTO " ++ escapeIdentifier table ++ " (" ++
        joinSep ", " escapedFields ++ ") VALUES"
      let rowHolders : List (List Holder) := data.map (fun row =>
        fields.map fun f =>
          match row.find? (fun p => p.1 == f) with
          | some p => toSQLHolder p.2
          | none => .hundef)
      let valueSets := data.map (fun _ => "(" ++ joinSep ", " (fields.map fun _ => "?") ++ ")")
      .ok ⟨sql ++ " " ++ joinSep ", " valueSets, rowHolders.flatten⟩

/-- Model of `BaseDialect.buildUpdate`: compile the assignments first
(throwing when none remain), then WHERE, ORDER BY and LIMIT. -/
def buildUpdate (table : String) (data : List (String × UpdateVal)) (wh : Option Where)
    (order : Option (List (String × String))) (limit : Option Int) :
    Except String ValueHolders :=
  let kept := (data.map fun e => createDataFilter e.1 e.2).filter (fun r => r.prepare ≠ "")
  if kept.length = 0 then
    .error "No fields to update"
  else
    match createWhere wh with
    | .error msg => .error msg
    | .ok whereResult =>
        let setHolders := (kept.map (·.holders)).flatten
        let sql0 := "UPDATE " ++ escapeIdentifier table ++ " SET " ++
          joinSep ", " (kept.map (·.prepare))
        let (sql1, holders1) :=
          if whereResult.prepare ≠ "" then
            (sql0 ++ " WHERE " ++ whereResult.prepare, setHolders ++ whereResult.holders)
          else (sql0, setHolders)
        let orderStr := createOrder order
        let sql2 := if orderStr ≠ "" then sql1 ++ " ORDER BY " ++ orderStr else sql1
        let sql3 := (match limit with
          | some n => if n > 0 then sql2 ++ " LIMIT " ++ toString n else sql2
          | none => sql2)
        .ok ⟨sql3, holders1⟩

/-- Model of `BaseDialect.buildDelete`. -/
def buildDelete (table : String) (wh : Option Where)
    (order : Option (List (String × String))) (limit : Option Int) :
    Except String ValueHolders :=
  match createWhere wh with
  | .error msg => .error msg
  | .ok whereResult =>
      let sql0 := "DELETE FROM " ++ escapeIdentifier table
      let (sql1, holders1) :=
        if whereResult.prepare ≠ "" then
          (sql0 ++ " WHERE " ++ whereResult.prepare, whereResult.holders)
        else (sql0, ([] : List Holder))
      let orderStr := createOrder order
      let sql2 := if orderStr ≠ "" then sql1 ++ " ORDER BY " ++ orderStr else sql1
      let sql3 := (match limit with
        | some n => if n > 0 then sql2 ++ " LIMIT " ++ toString n else sql2
        | none => sql2)
      .ok ⟨sql3, holders1⟩

/-- Model of `BaseDialect.buildCount`. -/
def buildCount (table : String) (wh : Option Where)
    (join : Option (List (String × JoinSpec))) (groupBy : Option GroupBySpec)
    (having : Option Having) : Except String ValueHolders :=
  match createJoin join with
  | .error msg => .error msg
  | .ok joinStr =>
      match createWhere wh with
      | .error msg => .error msg
      | .ok whereResult =>
          match createHaving having with
          | .error msg => .error msg
          | .ok havingResult =>
              let sql0 := "SELECT COUNT(*) as " ++ escapeIdentifier "total_num" ++ " FROM " ++
                escapeIdentifier table
              let sql1 := if joinStr ≠ "" then sql0 ++ joinStr else sql0
              let (sql2, holders2) :=
                if whereResult.prepare ≠ "" then
                  (sql1 ++ " WHERE " ++ whereResult.prepare, whereResult.holders)
                else (sql1, ([] : List Holder))
              let groupByStr := createGroupBy groupBy
              let sql3 := if groupByStr ≠ "" then sql2 ++ " GROUP BY " ++ groupByStr else sql2
              let (sql4, holders4) :=
                if havingResult.prepare ≠ "" then
                  (sql3 ++ " HAVING " ++ havingResult.prepare, holders2 ++ havingResult.holders)
                else (sql3, holders2)
              .ok ⟨sql4, holders4⟩

/-- Model of `BaseDialect.buildExists` (`SELECT 1 ... LIMIT 1`). -/
def buildExists (table : String) (wh : Option Where) : Except String ValueHolders :=
  match createWhere wh with
  | .error msg => .error msg
  | .ok whereResult =>
      let sql0 := "SELECT 1 FROM " ++ escapeIdentifier table
      let (sql1, holders1) :=
        if whereResult.prepare ≠ "" then
          (sql0 ++ " WHERE " ++ whereResult.prepare, whereResult.holders)
        else (sql0, ([] : List Holder))
      .ok ⟨sql1 ++ " LIMIT 1", holders1⟩

/-- Model of `MySQLDialect.buildUpsert`
(`INSERT ... ON DUPLICATE KEY UPDATE`): insert all data fields, then update
every field of `updateData` (defaulting to `data`) that is not a unique
key.  The source never throws here. -/
def buildUpsert (table : String) (data : List (String × Scalar)) (uniqueKeys : List String)
    (updateData : Option (List (String × Scalar))) : ValueHolders :=
  let fields := data.map (fun p => escapeIdentifier p.1)
  let holders0 := data.map (fun p => toSQLHolder p.2)
  let placeholders := joinSep ", " (fields.map fun _ => "?")
  let sql0 := "INSERT INTO " ++ escapeIdentifier table ++ " (" ++ joinSep ", " fields ++
    ") VALUES (" ++ placeholders ++ ")"
  let updateFields := updateData.getD data
  let updParts := updateFields.filter (fun p => ¬ uniqueKeys.contains p.1)
  let updateHolders := updParts.map (fun p => toSQLHolder p.2)
  let upd := updParts.map (fun p => escapeIdentifier p.1 ++ " = ?")
  if upd.length > 0 then
    ⟨sql0 ++ " ON DUPLICATE KEY UPDATE " ++ joinSep ", " upd, holders0 ++ updateHolders⟩
  else
    ⟨sql0, holders0⟩

end MySQLDialect

/-! ## Placeholder counting

`countQM` counts the positional placeholder characters of a piece of SQL
text.  `noQM s` says a string contributes no placeholder; identifiers and
raw pass-through fragments need such side conditions because the compiler
concatenates them verbatim. -/

/-- Absence of placeholder characters in a string. -/
abbrev noQM (s : String) : Prop := countQM s = 0

/-! ## Well-formedness of descriptors

The compiler concatenates identifiers and raw SQL fragments verbatim, so
the placeholder/parameter invariant can only hold when those strings do not
themselves smuggle placeholder characters in (identifiers) and when raw
fragments come with exactly matching parameter lists.  `WFWhere` captures
this for WHERE descriptors. -/

/-- Well-formed WHERE descriptors: field names carry no placeholder
character, a raw fragment carries none, a raw fragment with parameters has
exactly one placeholder per parameter, and the members of `AND` / `OR`
arrays are recursively well-formed. -/
inductive WFWhere : Where → Prop
  | nullW : WFWhere .nullW
  | raw (sql : String) : noQM sql → WFWhere (.raw sql)
  | rawP (sql : String) (params : Option (List Holder)) :
      countQM sql = (params.getD []).length → WFWhere (.rawP sql params)
  | obj (fields : List (String × FieldVal)) (andC orC : Option (List Where)) :
      (∀ e ∈ fields, noQM e.1) →
      (∀ l, andC = some l → ∀ c ∈ l, WFWhere c) →
      (∀ l, orC = some l → ∀ c ∈ l, WFWhere c) →
      WFWhere (.obj fields andC orC)

namespace MySQLDialect

/-- Well-formed GROUP BY descriptors: every field name is placeholder-free. -/
def WFGroupBy : Option GroupBySpec → Prop
  | none => True
  | some (.str s) => noQM s
  | some (.arr l) => ∀ f ∈ l, noQM f

/-- Well-formed join definitions: table names, ON conditions and USING
column names are placeholder-free. -/
def WFJoinEntry (e : String × JoinSpec) : Prop :=
  noQM e.1 ∧
  (match e.2 with
   | .onStr cond => noQM cond
   | .cfg _ onC usingC =>
       (∀ s, onC = some s → noQM s) ∧ (∀ us, usingC = some us → ∀ f ∈ us, noQM f))

/-- Well-formed HAVING descriptors. -/
def WFHaving : Option Having → Prop
  | none => True
  | some (.str sql) => noQM sql
  | some (.arrH sql params) => countQM sql = (params.getD []).length
  | some (.obj fields) => ∀ e ∈ fields, noQM e.1

end MySQLDialect

/-! ## Repository facade (`Table.ts`)

The driver is abstracted as a pure function from a compiled statement to
the backend-reported result header (`execute` of `IDatabaseDriver`); the
SQL-logging side effect is elided.  Each operation returns the source's
boolean result together with the `OperationResult` it records in
`_lastOperationResult`, and `Table.adds` additionally returns the list of
statements it handed to the driver, so that "no SQL was issued" is
expressible. -/

/-- Kind of the last mutating operation (`OperationResult.type`). -/
inductive OpKind where
  | insert | update | delete | upsert
deriving DecidableEq

/-- Branch taken by an UPSERT (`OperationResult.action`). -/
inductive UpsertAction where
  | insert | update
deriving DecidableEq

/-- Result header reported by the driver for a mutating statement
(`ResultHeader` of `IDatabaseDriver`; `insertId` is absent when the backend
reports zero). -/
structure ResultHeader where
  affectedRows : Nat
  insertId : Option Nat
deriving DecidableEq

/-- Operation result recorded on the Table instance
(`Table._lastOperationResult`). -/
structure OperationResult where
  type : OpKind
  affectedRows : Nat
  insertId : Option Nat := none
  action : Option UpsertAction := none
deriving DecidableEq

namespace Table

/-- Model of `Table.update`: compile with `buildUpdate` and execute; the
compiler's `No fields to update` error is converted into a successful no-op
recording zero affected rows, every other error propagates. -/
def update (exec : ValueHolders → ResultHeader) (tableName : String)
    (data : List (String × UpdateVal)) (wh : Option Where)
    (order : Option (List (String × String))) (limit : Option Int) :
    Except String (Bool × OperationResult) :=
  match MySQLDialect.buildUpdate tableName data wh order limit with
  | .ok stmt =>
      let result := exec stmt
      .ok (true, { type := .update, affectedRows := result.affectedRows })
  | .error e =>
      if e = "No fields to update" then
        .ok (true, { type := .update, affectedRows := 0 })
      else .error e

/-- Model of `Table.upsert`: require a non-empty `uniqueKeys` list whose
every key occurs in the data payload (the first missing key is reported),
compile with the MySQL dialect's `buildUpsert` (the dialect implements it,
so the source's support check passes), execute, and record the action from
the backend's affected-row convention: 1 means insert, anything else means
update. -/
def upsert (exec : ValueHolders → ResultHeader) (tableName : String)
    (data : List (String × Scalar)) (uniqueKeys : List String)
    (updateData : Option (List (String × Scalar))) :
    Except String (Bool × OperationResult) :=
  if uniqueKeys.length = 0 then
    .error "uniqueKeys is required for upsert operation"
  else
    match uniqueKeys.find? (fun k => !((data.map (·.1)).contains k)) with
    | some k => .error ("uniqueKey \"" ++ k ++ "\" not found in data")
    | none =>
        let stmt := MySQLDialect.buildUpsert tableName data uniqueKeys updateData
        let result := exec stmt
        let action : UpsertAction := if result.affectedRows = 1 then .insert else .update
        .ok (true, { type := .upsert, affectedRows := result.affectedRows,
                     insertId := result.insertId, action := some action })

/-- Canonically sorted key list of a record, modelling JavaScript
`Object.keys(record).sort()` (default lexicographic comparator; object keys
are distinct, so any comparison sort produces this order). -/
def sortKeys (l : List String) : List String := List.insertionSort (· ≤ ·) l

/-- Error message of the batch-insert field-consistency check. -/
def addsMismatchMsg (i : Nat) (expected got : List String) : String :=
  "Record at index " ++ toString i ++ " has different fields. " ++
  "Expected: [" ++ joinSep ", " expected ++ "], " ++
  "Got: [" ++ joinSep ", " got ++ "]"

/-- Validation loop of `Table.adds` from record index `i`: a record whose
sorted key list differs from the first record's (the source compares length
plus position-wise equality of the sorted lists, which is list equality)
throws with a field-list diff. -/
def checkFields (firstKeys : List String) : Nat → List (List (String × Scalar)) →
    Except String Unit
  | _, [] => .ok ()
  | i, row :: rest =>
      let keys := sortKeys (row.map (·.1))
      if keys ≠ firstKeys then .error (addsMismatchMsg i firstKeys keys)
      else checkFields firstKeys (i + 1) rest

/-- Model of `Table.adds`: reject an empty batch, validate that every
record declares the same field set as the first, compile one multi-row
INSERT, execute it, and require the affected-row count to equal the batch
size.  The second component lists the statements handed to the driver. -/
def adds (exec : ValueHolders → ResultHeader) (tableName : String)
    (data : List (List (String × Scalar))) :
    Except String (Bool × OperationResult) × List ValueHolders :=
  match data with
  | [] => (.error "Parameter error, data must be an array with length >= 1", [])
  | first :: rest =>
      match checkFields (sortKeys (first.map (·.1))) 1 rest with
      | .error msg => (.error msg, [])
      | .ok _ =>
          match MySQLDialect.buildInsert tableName data with
          | .error msg => (.error msg, [])
          | .ok stmt =>
              let result := exec stmt
              if result.affectedRows ≠ data.length then
                (.error ("Expected to insert " ++ toString data.length ++
                  " rows but only " ++ toString result.affectedRows ++ " were affected"),
                 [stmt])
              else
                (.ok (true, { type := .insert, affectedRows := result.affectedRows,
                              insertId := result.insertId }), [stmt])

end Table

/-! ## Connection driver retry protocol (`MySQLDriver.ts`)

`retryOnConnectionError` is modelled over an abstract operation whose
outcome on the n-th execution is given by `op n`: either a successful value
or a failure that is or is not a retryable connection error (the source's
`isConnectionError` classification).  The retry delays (100 ms / 1000 ms)
are timing-only and elided; the observable effects kept are the final
result, the number of attempts, the number of pool rebuilds
(`recreatePool` calls that actually rebuild) and the pool-dead flag. -/

namespace MySQLDriver

/-- Outcome of one execution of the wrapped driver operation. -/
inductive Outcome (α : Type) where
  | success (v : α)
  | failure (retryable : Bool) (msg : String)

/-- Observable result of `retryOnConnectionError`. -/
structure RetryResult (α : Type) where
  result : Except String α
  attempts : Nat
  rebuilds : Nat
  isPoolDead : Bool

/-- Loop of `retryOnConnectionError` over the remaining attempt numbers,
carrying the consecutive-error count, the pool-dead flag, the rebuild
count and the last error.  The empty case renders the `throw lastError`
after the loop, which is unreachable from `[1, 2, 3]`. -/
def retryGo (op : Nat → Outcome α) : List Nat → Nat → Bool → Nat → String → RetryResult α
  | [], _, dead, rebuilds, lastErr => ⟨.error lastErr, 3, rebuilds, dead⟩
  | attempt :: restA, consec, dead, rebuilds, _lastErr =>
      let (dead1, rebuilds1) :=
        if dead ∧ attempt > 1 then (false, rebuilds + 1) else (dead, rebuilds)
      match op attempt with
      | .success v => ⟨.ok v, attempt, rebuilds1, false⟩
      | .failure retryable msg =>
          if ¬ retryable then ⟨.error msg, attempt, rebuilds1, dead1⟩
          else
            let consec2 := consec + 1
            let dead2 := if consec2 ≥ 2 then true else dead1
            if attempt = 3 then ⟨.error msg, attempt, rebuilds1, dead2⟩
            else retryGo op restA consec2 dead2 rebuilds1 msg

/-- Model of `MySQLDriver.retryOnConnectionError`: inside a transaction the
operation runs exactly once, unretried, on the pinned connection; outside
one, up to three attempts run with the rebuild protocol. -/
def retryOnConnectionError (inTransaction : Bool) (dead0 : Bool)
    (op : Nat → Outcome α) : RetryResult α :=
  if inTransaction then
    match op 1 with
    | .success v => ⟨.ok v, 1, 0, dead0⟩
    | .failure _ msg => ⟨.error msg, 1, 0, dead0⟩
  else retryGo op [1, 2, 3] 0 dead0 0 ""

end MySQLDriver

/-! ## Distributed lease lock (`MutexLock`)

The Redis cache is modelled as a map from keys to values; `SET NX PX` and
the two Lua scripts are atomic functions on it.  Key expiry is time-based
and elided: renewal outcomes (the result of the safe-extend script, which
fails when the key expired, was reclaimed, or the cache was unreachable)
are instead supplied as an explicit list of booleans, one per timer tick
occurring while the task runs.  Lock values (`generateLockValue`, built
from the owner identity, a timestamp and randomness) are inputs.  The
`redisName` instance selector is elided (one cache).  The source's
`prefix` option and `renewIntervalRatio` option appear here as `pfx` and
`renewIntervalFrac`. -/

namespace MutexLock

/-- `MutexLock.KEY_PREFIX`. -/
def KEY_PREFIX : String := "NT.MutexLock."

/-- `MutexLock.DEFAULT_TTL_MS` (30 s). -/
def DEFAULT_TTL_MS : Nat := 30000

/-- `MutexLock.MIN_TTL_MS` (5 s). -/
def MIN_TTL_MS : Nat := 5000

/-- `MutexLock.MAX_TTL_MS` (10 min). -/
def MAX_TTL_MS : Nat := 600000

/-- `MutexLock.DEFAULT_AUTO_RENEW`. -/
def DEFAULT_AUTO_RENEW : Bool := true

/-- Default renew-interval / TTL fraction (source constant value 0.5). -/
def DEFAULT_RENEW_FRAC : ℚ := 1 / 2

/-- `MutexLock.MAX_RENEW_FAILURES`. -/
def MAX_RENEW_FAILURES : Nat := 3

/-- `MutexLock.MIN_RENEW_INTERVAL_MS` (1 s). -/
def MIN_RENEW_INTERVAL_MS : Nat := 1000

/-- JavaScript `String.prototype.trim`, evaluated characterwise. -/
def jsTrim (s : String) : String :=
  ⟨((s.data.dropWhile Char.isWhitespace).reverse.dropWhile Char.isWhitespace).reverse⟩

/-- Model of `MutexLock.buildLockKey` (`prefix?.trim() || 'mutex'` then
`namespace:key`). -/
def buildLockKey (key : String) (pfx : String) : String :=
  let ns := if jsTrim pfx = "" then "mutex" else jsTrim pfx
  ns ++ ":" ++ jsTrim key

/-- Model of `MutexLock.normalizeTtl`: clamp into `[5000, 600000]` with
default 30000. -/
def normalizeTtl (ttl : Option Nat) : Nat :=
  max MIN_TTL_MS (min (ttl.getD DEFAULT_TTL_MS) MAX_TTL_MS)

/-- Renewal timer interval of `startAutoRenew`:
`Math.max(MIN_RENEW_INTERVAL_MS, Math.floor(ttlMs * ratio))`. -/
def renewInterval (ttlMs : Nat) (frac : ℚ) : ℤ :=
  max (MIN_RENEW_INTERVAL_MS : ℤ) ⌊(ttlMs : ℚ) * frac⌋

/-- Renewal record of one held lease (`RenewRecord`; the timer handle is
elided, its behaviour is `renewTick`). -/
structure RenewRecord where
  value : String
  consecutiveRenewFailures : Nat
deriving DecidableEq

/-- One firing of the renewal timer, given whether the safe-extend
succeeded: success resets the consecutive-failure counter; a failure
increments it and, at the third consecutive failure, stops renewal and
removes the record (`none`). -/
def renewTick (record : RenewRecord) (success : Bool) : Option RenewRecord :=
  if success then some { record with consecutiveRenewFailures := 0 }
  else
    let f := record.consecutiveRenewFailures + 1
    if f ≥ MAX_RENEW_FAILURES then none
    else some { record with consecutiveRenewFailures := f }

/-- A sequence of timer firings; once renewal stopped (`none`), the timer
is cleared and no further firing occurs. -/
def renewRun (record : Option RenewRecord) (ticks : List Bool) : Option RenewRecord :=
  ticks.foldl
    (fun acc t =>
      match acc with
      | none => none
      | some st => renewTick st t)
    record

/-- The renewal map (`renewMap : Map<string, RenewRecord>`). -/
abbrev RenewMap : Type := List (String × RenewRecord)

/-- Lookup in the renewal map. -/
def rmLookup (rm : RenewMap) (k : String) : Option RenewRecord :=
  (rm.find? (fun p => p.1 == k)).map (·.2)

/-- Deletion from the renewal map (`renewMap.delete`). -/
def rmErase (rm : RenewMap) (k : String) : RenewMap :=
  rm.filter (fun p => p.1 != k)

/-- Insertion into the renewal map (`renewMap.set`; the position of an
updated entry is irrelevant to lookups). -/
def rmInsert (rm : RenewMap) (k : String) (r : RenewRecord) : RenewMap :=
  rmErase rm k ++ [(k, r)]

/-- The cache keyspace. -/
abbrev Store : Type := String → Option String

/-- Pointwise update of the cache. -/
def setStore (st : Store) (k : String) (v : Option String) : Store :=
  fun k2 => if k2 = k then v else st k2

/-- Model of `MutexLock.acquire`: a single atomic
`SET key value NX PX ttl`; succeeds exactly when the key is absent.  Not
retried by the lock itself. -/
def acquire (st : Store) (key value : String) : Store × Bool :=
  match st key with
  | some _ => (st, false)
  | none => (setStore st key (some value), true)

/-- Model of `MutexLock.releaseLock` (the release Lua script): delete the
key only when it still holds this lease's value. -/
def releaseLock (st : Store) (key value : String) : Store × Bool :=
  if st key = some value then (setStore st key none, true) else (st, false)

/-- Model of `MutexLock.startAutoRenew`: keep an existing renewal of the
same value, replace a stale one, and register a fresh record with a zero
failure counter. -/
def startAutoRenew (rm : RenewMap) (key value : String) : RenewMap :=
  match rmLookup rm key with
  | some r => if r.value = value then rm else rmInsert (rmErase rm key) key ⟨value, 0⟩
  | none => rmInsert rm key ⟨value, 0⟩

/-- Model of `MutexLock.stopAutoRenew`: remove the record only when its
value matches. -/
def stopAutoRenew (rm : RenewMap) (key value : String) : RenewMap :=
  match rmLookup rm key with
  | some r => if r.value = value then rmErase rm key else rm
  | none => rm

/-- Timer firings for `key` while the task runs, applied to the renewal
map: each firing either updates the record (`renewTick`) or removes it
when the failure threshold is crossed. -/
def applyTicks (rm : RenewMap) (key : String) (ticks : List Bool) : RenewMap :=
  ticks.foldl
    (fun m t =>
      match rmLookup m key with
      | some r =>
          match renewTick r t with
          | some r2 => rmInsert (rmErase m key) key r2
          | none => rmErase m key
      | none => m)
    rm

/-- `SafeRunOptions` (with `prefix` as `pfx` and `renewIntervalRatio` as
`renewIntervalFrac`; `redisName` elided). -/
structure SafeRunOptions where
  ttlMs : Option Nat := none
  autoRenew : Option Bool := none
  renewIntervalFrac : Option ℚ := none
  pfx : Option String := none

/-- A cache command observed by the Redis server. -/
inductive CacheOp where
  | setNX (key value : String) (ttl : Nat)
  | evalExtend (key value : String) (ttl : Nat)
  | evalRelease (key value : String)
deriving DecidableEq

/-- Result value of `safeRun` (`{ ok, result? }`). -/
structure SafeRunResult (α : Type) where
  ok : Bool
  result : Option α

/-- Model of `MutexLock.safeRun`: one acquisition attempt; on failure,
return `ok := false` immediately; on success, start auto-renewal (when
enabled), let the renewal timer fire `ticks` while the task runs, then
release the lock and stop renewal before returning the task result or
re-throwing the task error.  The fourth component lists the cache commands
issued. -/
def safeRun {ε α : Type} (st : Store) (rm : RenewMap) (key : String)
    (opts : SafeRunOptions) (lockValue : String) (ticks : List Bool)
    (task : Except ε α) :
    Store × RenewMap × Except ε (SafeRunResult α) × List CacheOp :=
  let pfx := opts.pfx.getD KEY_PREFIX
  let lockKey := buildLockKey key pfx
  let ttl := normalizeTtl opts.ttlMs
  let autoRenew := opts.autoRenew.getD DEFAULT_AUTO_RENEW
  match acquire st lockKey lockValue with
  | (_, false) => (st, rm, .ok ⟨false, none⟩, [.setNX lockKey lockValue ttl])
  | (st1, true) =>
      let rm1 := if autoRenew then startAutoRenew rm lockKey lockValue else rm
      let rm2 := applyTicks rm1 lockKey ticks
      let rm3 := stopAutoRenew rm2 lockKey lockValue
      let st2 := (releaseLock st1 lockKey lockValue).1
      let trace := [CacheOp.setNX lockKey lockValue ttl] ++
        (ticks.map fun _ => CacheOp.evalExtend lockKey lockValue ttl) ++
        [CacheOp.evalRelease lockKey lockValue]
      match task with
      | .ok v => (st2, rm3, .ok ⟨true, some v⟩, trace)
      | .error e => (st2, rm3, .error e, trace)

end MutexLock

theorem countQM_append (a b : String) : countQM (a ++ b) = countQM a + countQM b := by
  simp [countQM, String.data_append, List.count_append]

theorem countQM_joinSep (sep : String) (hsep : noQM sep) :
    ∀ l : List String, countQM (joinSep sep l) = (l.map countQM).sum := by
  intro l
  induction l with
  | nil => simp [joinSep, countQM]
  | cons x rest ih =>
      cases rest with
      | nil => simp [joinSep]
      | cons y tl =>
          simp only [joinSep, List.map_cons, List.sum_cons, countQM_append]
          rw [ih]
          simp only [List.map_cons, List.sum_cons]
          simp only [noQM] at hsep
          omega

theorem countQM_joinSep_zero (sep : String) (hsep : noQM sep) (l : List String)
    (h : ∀ p ∈ l, noQM p) : noQM (joinSep sep l) := by
  have := countQM_joinSep sep hsep l
  simp only [noQM] at *
  rw [this]
  rw [List.sum_eq_zero]
  intro x hx
  rcases List.mem_map.mp hx with ⟨p, hp, rfl⟩
  exact h p hp

theorem countQM_escape (id : String) :
    countQM (MySQLDialect.escapeIdentifier id) = countQM id := by
  have h1 : countQM "`" = 0 := by decide
  simp [MySQLDialect.escapeIdentifier, countQM_append, h1]

/-- Summing the placeholder count over a list of bare placeholder tokens
gives the list length. -/
theorem sum_countQM_qmarks {α : Type} (vs : List α) :
    ((vs.map fun _ => "?").map countQM).sum = vs.length := by
  induction vs with
  | nil => simp
  | cons a l ih =>
      have h1 : countQM "?" = 1 := by decide
      simp only [List.map_cons, List.sum_cons, List.length_cons, h1, ih]
      omega

/-- Characters emitted by `Nat.digitChar` on a decimal digit are never
placeholders. -/
theorem digitChar_ne_qm (d : Nat) (hd : d < 10) : Nat.digitChar d ≠ '?' := by
  interval_cases d <;> decide

theorem toDigitsCore_no_qm :
    ∀ (fuel n : Nat) (ds : List Char), (∀ c ∈ ds, c ≠ '?') →
      ∀ c ∈ Nat.toDigitsCore 10 fuel n ds, c ≠ '?' := by
  intro fuel
  induction fuel with
  | zero => intro n ds hds c hc; exact hds c hc
  | succ fuel ih =>
      intro n ds hds c hc
      simp only [Nat.toDigitsCore] at hc
      split at hc
      · rcases List.mem_cons.mp hc with h | h
        · subst h; exact digitChar_ne_qm _ (Nat.mod_lt _ (by omega))
        · exact hds c h
      · refine ih _ _ ?_ c hc
        intro x hx
        rcases List.mem_cons.mp hx with h | h
        · subst h; exact digitChar_ne_qm _ (Nat.mod_lt _ (by omega))
        · exact hds x h

theorem countQM_natRepr (n : Nat) : noQM (Nat.repr n) := by
  have h := toDigitsCore_no_qm (n + 1) n [] (by intro c hc; cases hc)
  simp only [noQM, countQM, Nat.repr, Nat.toDigits, List.count_eq_zero]
  intro hmem
  simp only [List.asString] at hmem
  exact h '?' hmem rfl

theorem countQM_intRepr (n : Int) : noQM (toString n) := by
  show noQM (Int.repr n)
  cases n with
  | ofNat m => simpa [Int.repr] using countQM_natRepr m
  | negSucc m =>
      simp only [Int.repr]
      have h1 : countQM "-" = 0 := by decide
      have h2 := countQM_natRepr (Nat.succ m)
      simp only [noQM] at h2 ⊢
      rw [countQM_append, h1, h2]

namespace MySQLDialect

theorem countQM_cmpSQL (op : CmpOp) : noQM (cmpSQL op) := by cases op <;> decide

theorem countQM_rangeSQL (op : RangeOp) : noQM (rangeSQL op) := by cases op <;> decide

theorem countQM_likeSQL (op : LikeOp) : noQM (likeSQL op) := by cases op <;> decide

theorem countQM_joinTypeSQL (t : JoinType) : noQM (joinTypeSQL t) := by cases t <;> decide

/-- Invariant of `createOperatorCondition`: on success, the fragment holds
exactly as many placeholders as parameters were produced, provided the
field name itself contains none. -/
theorem createOperatorCondition_inv (key : String) (e : OpEntry) (hk : noQM key)
    (r : ValueHolders) (h : createOperatorCondition key e = .ok r) :
    countQM r.prepare = r.holders.length := by
  have hkey : countQM (escapeIdentifier key) = 0 := by rw [countQM_escape]; exact hk
  have hsp : countQM " " = 0 := by decide
  have hq1 : countQM " ?" = 1 := by decide
  cases e with
  | cmp op v =>
      have hop : countQM (cmpSQL op) = 0 := countQM_cmpSQL op
      simp only [createOperatorCondition, Except.ok.injEq] at h
      subst h
      simp only [countQM_append, List.length_cons, List.length_nil, hkey, hsp, hop, hq1]
  | range op v =>
      cases v with
      | sc sv => cases op <;> exact Except.noConfusion h
      | arr vs =>
          have hop : countQM (rangeSQL op) = 0 := countQM_rangeSQL op
          have hjq : countQM (joinSep ", " (vs.map fun _ => "?")) = vs.length := by
            rw [countQM_joinSep ", " (by decide), sum_countQM_qmarks]
          have hpo : countQM " (" = 0 := by decide
          have hpc : countQM ")" = 0 := by decide
          have hqa : countQM " ? AND ?" = 2 := by decide
          cases op with
          | inOp =>
              simp only [createOperatorCondition] at h
              split at h
              · exact Except.noConfusion h
              · simp only [Except.ok.injEq] at h
                subst h
                simp only [countQM_append, hkey, hsp, hop, hpo, hjq, hpc, List.length_map]
                omega
          | notIn =>
              simp only [createOperatorCondition] at h
              split at h
              · exact Except.noConfusion h
              · simp only [Except.ok.injEq] at h
                subst h
                simp only [countQM_append, hkey, hsp, hop, hpo, hjq, hpc, List.length_map]
                omega
          | between =>
              simp only [createOperatorCondition] at h
              split at h
              · simp only [Except.ok.injEq] at h
                subst h
                simp only [countQM_append, hkey, hsp, hop, hqa, List.length_cons,
                  List.length_nil]
              · exact Except.noConfusion h
          | notBetween =>
              simp only [createOperatorCondition] at h
              split at h
              · simp only [Except.ok.injEq] at h
                subst h
                simp only [countQM_append, hkey, hsp, hop, hqa, List.length_cons,
                  List.length_nil]
              · exact Except.noConfusion h
  | strm op v =>
      have hop : countQM (likeSQL op) = 0 := countQM_likeSQL op
      simp only [createOperatorCondition, Except.ok.injEq] at h
      subst h
      simp only [countQM_append, List.length_cons, List.length_nil, hkey, hsp, hop, hq1]
  | conv op v =>
      have hl : countQM " LIKE ?" = 1 := by decide
      cases op <;>
        (simp only [createOperatorCondition, Except.ok.injEq] at h
         subst h
         simp only [countQM_append, List.length_cons, List.length_nil, hkey, hl])
  | nullChk op v =>
      have h1 : countQM " IS NULL" = 0 := by decide
      have h2 : countQM " IS NOT NULL" = 0 := by decide
      cases op <;> cases v <;>
        (simp only [createOperatorCondition, Bool.false_eq_true, if_true, if_false,
           Except.ok.injEq] at h
         subst h
         simp only [countQM_append, List.length_nil, hkey, h1, h2])

/-- Invariant of the operator loop of `createFilter`. -/
theorem opConditions_inv (key : String) (hk : noQM key) :
    ∀ (entries : List OpEntry) (cs : List String) (hs : List Holder),
      opConditions key entries = .ok (cs, hs) →
      (cs.map countQM).sum = hs.length := by
  intro entries
  induction entries with
  | nil =>
      intro cs hs h
      simp only [opConditions, Except.ok.injEq, Prod.mk.injEq] at h
      obtain ⟨h1, h2⟩ := h
      subst h1; subst h2
      simp
  | cons e rest ih =>
      intro cs hs h
      cases hr : createOperatorCondition key e with
      | error msg =>
          simp only [opConditions, hr] at h
          exact Except.noConfusion h
      | ok r =>
          cases hrest : opConditions key rest with
          | error msg =>
              simp only [opConditions, hr, hrest] at h
              exact Except.noConfusion h
          | ok pr =>
              obtain ⟨cs', hs'⟩ := pr
              have hre := createOperatorCondition_inv key e hk r hr
              have ihre := ih cs' hs' hrest
              simp only [opConditions, hr, hrest] at h
              split at h
              · simp only [Except.ok.injEq, Prod.mk.injEq] at h
                obtain ⟨h1, h2⟩ := h
                subst h1; subst h2
                simp only [List.map_cons, List.sum_cons, List.length_append]
                omega
              · simp only [Except.ok.injEq, Prod.mk.injEq] at h
                obtain ⟨h1, h2⟩ := h
                subst h1; subst h2
                omega

/-- Invariant of `createFilter`: on success, placeholders match parameters,
provided the field name contains no placeholder character. -/
theorem createFilter_inv (key : String) (v : FieldVal) (hk : noQM key)
    (r : ValueHolders) (h : createFilter key v = .ok r) :
    countQM r.prepare = r.holders.length := by
  have hkey : countQM (escapeIdentifier key) = 0 := by rw [countQM_escape]; exact hk
  cases v with
  | nullv =>
      simp only [createFilter, Except.ok.injEq] at h
      subst h
      have h1 : countQM " IS NULL" = 0 := by decide
      simp only [countQM_append, hkey, h1, List.length_nil]
  | undef =>
      simp only [createFilter, Except.ok.injEq] at h
      subst h
      decide
  | scalar sv =>
      simp only [createFilter, Except.ok.injEq] at h
      subst h
      have h1 : countQM " = ?" = 1 := by decide
      simp only [countQM_append, hkey, h1, List.length_cons, List.length_nil]
  | ops entries =>
      cases hop : opConditions key entries with
      | error msg =>
          simp only [createFilter, hop] at h
          exact Except.noConfusion h
      | ok pr =>
          obtain ⟨cs, hs⟩ := pr
          have hinv := opConditions_inv key hk entries cs hs hop
          simp only [createFilter, hop] at h
          match cs, hinv, h with
          | [], hinv, h =>
              simp only [Except.ok.injEq] at h
              subst h
              simp only [List.map_nil, List.sum_nil] at hinv
              simp [countQM]
          | [c], hinv, h =>
              simp only [Except.ok.injEq] at h
              subst h
              simp only [List.map_cons, List.map_nil, List.sum_cons, List.sum_nil] at hinv
              simpa using hinv
          | c₁ :: c₂ :: ctl, hinv, h =>
              simp only [Except.ok.injEq] at h
              subst h
              have hp : countQM "(" = 0 := by decide
              have hc : countQM ")" = 0 := by decide
              have hj := countQM_joinSep " AND " (by decide) (c₁ :: c₂ :: ctl)
              simp only [countQM_append, hp, hc, hj]
              omega

/-- Invariant of the field loop shared by `createFieldConditions` and
`createHaving`. -/
theorem fieldParts_inv :
    ∀ (fields : List (String × FieldVal)), (∀ e ∈ fields, noQM e.1) →
      ∀ cs hs, fieldParts fields = .ok (cs, hs) →
      (cs.map countQM).sum = hs.length := by
  intro fields
  induction fields with
  | nil =>
      intro _ cs hs h
      simp only [fieldParts, Except.ok.injEq, Prod.mk.injEq] at h
      obtain ⟨h1, h2⟩ := h
      subst h1; subst h2
      simp
  | cons e rest ih =>
      intro hkeys cs hs h
      obtain ⟨k, v⟩ := e
      cases hr : createFilter k v with
      | error msg =>
          simp only [fieldParts, hr] at h
          exact Except.noConfusion h
      | ok r =>
          cases hrest : fieldParts rest with
          | error msg =>
              simp only [fieldParts, hr, hrest] at h
              exact Except.noConfusion h
          | ok pr =>
              obtain ⟨cs', hs'⟩ := pr
              have hre := createFilter_inv k v (hkeys (k, v) (List.mem_cons_self _ _)) r hr
              have ihre := ih (fun x hx => hkeys x (List.mem_cons_of_mem _ hx)) cs' hs' hrest
              simp only [fieldParts, hr, hrest] at h
              split at h
              · simp only [Except.ok.injEq, Prod.mk.injEq] at h
                obtain ⟨h1, h2⟩ := h
                subst h1; subst h2
                simp only [List.map_cons, List.sum_cons, List.length_append]
                omega
              · simp only [Except.ok.injEq, Prod.mk.injEq] at h
                obtain ⟨h1, h2⟩ := h
                subst h1; subst h2
                omega

/-- Invariant of `createFieldConditions`. -/
theorem createFieldConditions_inv (fields : List (String × FieldVal))
    (hkeys : ∀ e ∈ fields, noQM e.1) (r : ValueHolders)
    (h : createFieldConditions fields = .ok r) :
    countQM r.prepare = r.holders.length := by
  cases hf : fieldParts fields with
  | error msg =>
      simp only [createFieldConditions, hf] at h
      exact Except.noConfusion h
  | ok pr =>
      obtain ⟨cs, hs⟩ := pr
      have hinv := fieldParts_inv fields hkeys cs hs hf
      simp only [createFieldConditions, hf, Except.ok.injEq] at h
      subst h
      rw [countQM_joinSep " AND " (by decide)]
      exact hinv

/-- Invariant of `fieldStage`. -/
theorem fieldStage_inv (fields : List (String × FieldVal))
    (hkeys : ∀ e ∈ fields, noQM e.1) (s : List String × List Holder)
    (h : fieldStage fields = .ok s) :
    (s.1.map countQM).sum = s.2.length := by
  simp only [fieldStage] at h
  split at h
  · cases hf : createFieldConditions fields with
    | error msg => rw [hf] at h; exact Except.noConfusion h
    | ok r =>
        have hinv := createFieldConditions_inv fields hkeys r hf
        rw [hf] at h
        simp only at h
        split at h
        · simp only [Except.ok.injEq] at h
          subst h
          simpa using hinv
        · simp only [Except.ok.injEq] at h
          subst h
          simp
  · simp only [Except.ok.injEq] at h
    subst h
    simp

end MySQLDialect

namespace MySQLDialect

/-- A condition fragment keeps its placeholder count when wrapped in the
bracketing of the logical stages. -/
theorem countQM_bracket (p : String) : countQM ("( " ++ p ++ " )") = countQM p := by
  have h1 : countQM "( " = 0 := by decide
  have h2 : countQM " )" = 0 := by decide
  simp [countQM_append, h1, h2]

/-- Combined invariant of `createWhereW`, `andParts` and `orParts`, proved
by strong induction on the size of the descriptor. -/
theorem whereInvAux :
    ∀ N : Nat,
      (∀ w : Where, sizeOf w ≤ N → WFWhere w → ∀ r, createWhereW w = .ok r →
        countQM r.prepare = r.holders.length) ∧
      (∀ l : List Where, sizeOf l ≤ N → (∀ c ∈ l, WFWhere c) →
        ∀ ps hs, andParts l = .ok (ps, hs) → (ps.map countQM).sum = hs.length) ∧
      (∀ l : List Where, sizeOf l ≤ N → (∀ c ∈ l, WFWhere c) →
        ∀ ps hs, orParts l = .ok (ps, hs) → (ps.map countQM).sum = hs.length) := by
  intro N
  induction N using Nat.strong_induction_on with
  | _ N IH =>
  refine ⟨?_, ?_, ?_⟩
  · -- createWhereW
    intro w hsz hwf r h
    cases w with
    | nullW =>
        simp only [createWhereW, Except.ok.injEq] at h
        subst h
        decide
    | raw sql =>
        cases hwf with
        | raw _ hq =>
            simp only [createWhereW, Except.ok.injEq] at h
            subst h
            simpa using hq
    | rawP sql params =>
        cases hwf with
        | rawP _ _ hq =>
            simp only [createWhereW, Except.ok.injEq] at h
            subst h
            simpa using hq
    | obj fields andC orC =>
        cases hwf with
        | obj _ _ _ hkeys hand hor =>
        simp only [createWhereW] at h
        split at h
        · simp only [Except.ok.injEq] at h
          subst h
          decide
        · cases hf : fieldStage fields with
          | error msg => rw [hf] at h; exact Except.noConfusion h
          | ok s1 =>
              rw [hf] at h
              have hs1 := fieldStage_inv fields hkeys s1 hf
              simp only at h
              cases ha : andStage andC s1 with
              | error msg => rw [ha] at h; exact Except.noConfusion h
              | ok s2 =>
                  rw [ha] at h
                  simp only at h
                  have hszobj : 1 + sizeOf fields + sizeOf andC + sizeOf orC ≤ N := by
                    have := Where.obj.sizeOf_spec fields andC orC
                    omega
                  have hs2 : (s2.1.map countQM).sum = s2.2.length := by
                    cases andC with
                    | none =>
                        simp only [andStage, Except.ok.injEq] at ha
                        subst ha
                        exact hs1
                    | some l =>
                        simp only [andStage] at ha
                        split at ha
                        · cases hap : andParts l with
                          | error msg => rw [hap] at ha; exact Except.noConfusion ha
                          | ok pr =>
                              obtain ⟨ps, hs⟩ := pr
                              have hlsz : sizeOf l < N := by
                                have := Option.some.sizeOf_spec l
                                omega
                              have hrec := (IH (sizeOf l) hlsz).2.1 l le_rfl
                                (hand l rfl) ps hs hap
                              rw [hap] at ha
                              simp only at ha
                              split at ha
                              · simp only [Except.ok.injEq] at ha
                                subst ha
                                simp only [List.map_append, List.sum_append,
                                  List.map_cons, List.map_nil, List.sum_cons, List.sum_nil,
                                  List.length_append]
                                rw [countQM_joinSep " AND " (by decide)]
                                omega
                              · simp only [Except.ok.injEq] at ha
                                subst ha
                                exact hs1
                        · simp only [Except.ok.injEq] at ha
                          subst ha
                          exact hs1
                  cases ho : orStage orC s2 with
                  | error msg => rw [ho] at h; exact Except.noConfusion h
                  | ok s3 =>
                      rw [ho] at h
                      simp only at h
                      have hs3 : (s3.1.map countQM).sum = s3.2.length := by
                        cases orC with
                        | none =>
                            simp only [orStage, Except.ok.injEq] at ho
                            subst ho
                            exact hs2
                        | some l =>
                            simp only [orStage] at ho
                            split at ho
                            · cases hop : orParts l with
                              | error msg => rw [hop] at ho; exact Except.noConfusion ho
                              | ok pr =>
                                  obtain ⟨ps, hs⟩ := pr
                                  have hlsz : sizeOf l < N := by
                                    have := Option.some.sizeOf_spec l
                                    omega
                                  have hrec := (IH (sizeOf l) hlsz).2.2 l le_rfl
                                    (hor l rfl) ps hs hop
                                  rw [hop] at ho
                                  simp only at ho
                                  split at ho
                                  · simp only [Except.ok.injEq] at ho
                                    subst ho
                                    have hcnt : countQM
                                        (if s2.1.length > 0 then
                                          "( " ++ joinSep " OR " ps ++ " )"
                                         else joinSep " OR " ps) =
                                        countQM (joinSep " OR " ps) := by
                                      split
                                      · exact countQM_bracket _
                                      · rfl
                                    simp only [List.map_append, List.sum_append,
                                      List.map_cons, List.map_nil, List.sum_cons,
                                      List.sum_nil, List.length_append, hcnt]
                                    rw [countQM_joinSep " OR " (by decide)]
                                    omega
                                  · simp only [Except.ok.injEq] at ho
                                    subst ho
                                    exact hs2
                            · simp only [Except.ok.injEq] at ho
                              subst ho
                              exact hs2
                      simp only [Except.ok.injEq] at h
                      subst h
                      simp only []
                      rw [countQM_joinSep " AND " (by decide)]
                      exact hs3
  · -- andParts
    intro l hsz hwf ps hs h
    cases l with
    | nil =>
        simp only [andParts, Except.ok.injEq, Prod.mk.injEq] at h
        obtain ⟨h1, h2⟩ := h
        subst h1; subst h2
        simp
    | cons c rest =>
        have hcsz : sizeOf c < N := by
          have := List.cons.sizeOf_spec c rest
          omega
        have hrsz : sizeOf rest < N := by
          have := List.cons.sizeOf_spec c rest
          omega
        cases hc : createWhereW c with
        | error msg =>
            simp only [andParts, hc] at h
            exact Except.noConfusion h
        | ok r =>
            cases hrest : andParts rest with
            | error msg =>
                simp only [andParts, hc, hrest] at h
                exact Except.noConfusion h
            | ok pr =>
                obtain ⟨ps', hs'⟩ := pr
                have hre := (IH (sizeOf c) hcsz).1 c le_rfl
                  (hwf c (List.mem_cons_self _ _)) r hc
                have ihre := (IH (sizeOf rest) hrsz).2.1 rest le_rfl
                  (fun x hx => hwf x (List.mem_cons_of_mem _ hx)) ps' hs' hrest
                simp only [andParts, hc, hrest] at h
                split at h
                · simp only [Except.ok.injEq, Prod.mk.injEq] at h
                  obtain ⟨h1, h2⟩ := h
                  subst h1; subst h2
                  have hcnt : countQM
                      (if needsBracketAnd c then "( " ++ r.prepare ++ " )" else r.prepare) =
                      countQM r.prepare := by
                    split
                    · exact countQM_bracket _
                    · rfl
                  simp only [List.map_cons, List.sum_cons, List.length_append, hcnt]
                  omega
                · simp only [Except.ok.injEq, Prod.mk.injEq] at h
                  obtain ⟨h1, h2⟩ := h
                  subst h1; subst h2
                  omega
  · -- orParts
    intro l hsz hwf ps hs h
    cases l with
    | nil =>
        simp only [orParts, Except.ok.injEq, Prod.mk.injEq] at h
        obtain ⟨h1, h2⟩ := h
        subst h1; subst h2
        simp
    | cons c rest =>
        have hcsz : sizeOf c < N := by
          have := List.cons.sizeOf_spec c rest
          omega
        have hrsz : sizeOf rest < N := by
          have := List.cons.sizeOf_spec c rest
          omega
        cases hc : createWhereW c with
        | error msg =>
            simp only [orParts, hc] at h
            exact Except.noConfusion h
        | ok r =>
            cases hrest : orParts rest with
            | error msg =>
                simp only [orParts, hc, hrest] at h
                exact Except.noConfusion h
            | ok pr =>
                obtain ⟨ps', hs'⟩ := pr
                have hre := (IH (sizeOf c) hcsz).1 c le_rfl
                  (hwf c (List.mem_cons_self _ _)) r hc
                have ihre := (IH (sizeOf rest) hrsz).2.2 rest le_rfl
                  (fun x hx => hwf x (List.mem_cons_of_mem _ hx)) ps' hs' hrest
                simp only [orParts, hc, hrest] at h
                split at h
                · simp only [Except.ok.injEq, Prod.mk.injEq] at h
                  obtain ⟨h1, h2⟩ := h
                  subst h1; subst h2
                  have hcnt : countQM
                      (if needsBracketOr c then "( " ++ r.prepare ++ " )" else r.prepare) =
                      countQM r.prepare := by
                    split
                    · exact countQM_bracket _
                    · rfl
                  simp only [List.map_cons, List.sum_cons, List.length_append, hcnt]
                  omega
                · simp only [Except.ok.injEq, Prod.mk.injEq] at h
                  obtain ⟨h1, h2⟩ := h
                  subst h1; subst h2
                  omega

/-- Invariant of `createWhere`: a well-formed WHERE descriptor compiles to
text whose placeholder count equals its parameter-list length. -/
theorem createWhere_inv (wh : Option Where)
    (hwf : ∀ w, wh = some w → WFWhere w) (r : ValueHolders)
    (h : createWhere wh = .ok r) :
    countQM r.prepare = r.holders.length := by
  cases wh with
  | none =>
      simp only [createWhere, Except.ok.injEq] at h
      subst h
      decide
  | some w =>
      exact (whereInvAux (sizeOf w)).1 w le_rfl (hwf w rfl) r h

/-- Characters of every part produced by `splitCharList` come from the
input. -/
theorem splitCharList_sub (c : Char) :
    ∀ (l : List Char) (part : List Char), part ∈ splitCharList c l →
      ∀ ch ∈ part, ch ∈ l := by
  intro l
  induction l with
  | nil =>
      intro part hpart ch hch
      simp only [splitCharList, List.mem_singleton] at hpart
      subst hpart
      cases hch
  | cons x rest ih =>
      intro part hpart ch hch
      simp only [splitCharList] at hpart
      cases hsp : splitCharList c rest with
      | nil => rw [hsp] at hpart; simp at hpart; subst hpart; cases hch
      | cons hd tl =>
          rw [hsp] at hpart
          simp only at hpart
          split at hpart
          · rcases List.mem_cons.mp hpart with h | h
            · subst h; cases hch
            · have : ch ∈ rest := ih part (hsp ▸ h) ch hch
              exact List.mem_cons_of_mem _ this
          · rcases List.mem_cons.mp hpart with h | h
            · subst h
              rcases List.mem_cons.mp hch with h2 | h2
              · subst h2; exact List.mem_cons_self _ _
              · have : ch ∈ rest := ih hd (hsp ▸ List.mem_cons_self _ _) ch h2
                exact List.mem_cons_of_mem _ this
            · have : ch ∈ rest := ih part (hsp ▸ List.mem_cons_of_mem _ h) ch hch
              exact List.mem_cons_of_mem _ this

/-- Pieces of a placeholder-free string split at dots are placeholder-free. -/
theorem splitDot_noQM (s : String) (hs : noQM s) : ∀ p ∈ splitDot s, noQM p := by
  intro p hp
  simp only [splitDot, List.mem_map] at hp
  obtain ⟨part, hpart, rfl⟩ := hp
  simp only [noQM, countQM] at hs ⊢
  rw [List.count_eq_zero] at hs ⊢
  intro hmem
  have : '?' ∈ s.data := splitCharList_sub '.' s.data part hpart '?' hmem
  exact hs this

theorem escapeGroupField_noQM (f : String) (hf : noQM f) : noQM (escapeGroupField f) := by
  simp only [escapeGroupField]
  split
  · refine countQM_joinSep_zero "." (by decide) _ ?_
    intro p hp
    rcases List.mem_map.mp hp with ⟨q, hq, rfl⟩
    simp only [noQM, countQM_escape]
    exact splitDot_noQM f hf q hq
  · simp only [noQM, countQM_escape]
    exact hf

theorem createGroupBy_noQM (g : Option GroupBySpec) (hg : WFGroupBy g) :
    noQM (createGroupBy g) := by
  cases g with
  | none => decide
  | some spec =>
      cases spec with
      | str s => exact escapeGroupField_noQM s hg
      | arr l =>
          simp only [createGroupBy]
          split
          · decide
          · refine countQM_joinSep_zero ", " (by decide) _ ?_
            intro p hp
            rcases List.mem_map.mp hp with ⟨f, hf, rfl⟩
            exact escapeGroupField_noQM f (hg f hf)

/-- The ORDER BY clause contains no placeholders when the ordered field
names contain none. -/
theorem createOrder_noQM (order : Option (List (String × String)))
    (h : ∀ e, order = some e → ∀ p ∈ e, noQM p.1) :
    noQM (createOrder order) := by
  cases order with
  | none => decide
  | some entries =>
      simp only [createOrder]
      refine countQM_joinSep_zero ", " (by decide) _ ?_
      intro p hp
      rcases List.mem_filterMap.mp hp with ⟨e, he, hfe⟩
      split at hfe
      · simp only [Option.some.injEq] at hfe
        subst hfe
        have hd : countQM (jsToUpper e.2) = 0 := by
          rename_i hdir
          rcases hdir with h2 | h2 <;> rw [h2] <;> decide
        have hsp : countQM " " = 0 := by decide
        simp only [noQM, countQM_append, countQM_escape, hd, hsp]
        have := h entries rfl e he
        simp only [noQM] at this
        omega
      · exact Option.noConfusion hfe

theorem joinPart_noQM (tableName : String) (spec : JoinSpec)
    (hwf : WFJoinEntry (tableName, spec)) (s : String)
    (h : joinPart tableName spec = .ok s) : noQM s := by
  obtain ⟨htab, hspec⟩ := hwf
  simp only [noQM] at htab
  cases spec with
  | onStr cond =>
      simp only [joinPart, Except.ok.injEq] at h
      subst h
      simp only at hspec
      simp only [noQM] at hspec
      have h1 : countQM " INNER JOIN " = 0 := by decide
      have h2 : countQM " ON " = 0 := by decide
      simp only [noQM, countQM_append, countQM_escape, h1, h2, htab, hspec]
  | cfg t onC usingC =>
      simp only at hspec
      obtain ⟨hon, hus⟩ := hspec
      have hty : countQM (joinTypeSQL (t.getD .inner)) = 0 := countQM_joinTypeSQL _
      have hsp : countQM " " = 0 := by decide
      have hjn : countQM " JOIN " = 0 := by decide
      simp only [joinPart] at h
      split at h
      · simp only [Except.ok.injEq] at h
        subst h
        simp only [noQM, countQM_append, countQM_escape, hty, hsp, hjn, htab]
      · cases usingC with
        | some us =>
            simp only at h
            split at h
            · exact Except.noConfusion h
            · simp only [Except.ok.injEq] at h
              subst h
              have hu : countQM " USING (" = 0 := by decide
              have hcp : countQM ")" = 0 := by decide
              have hflds : countQM (joinSep ", " (us.map escapeIdentifier)) = 0 := by
                refine countQM_joinSep_zero ", " (by decide) _ ?_
                intro p hp
                rcases List.mem_map.mp hp with ⟨f, hf, rfl⟩
                simp only [noQM, countQM_escape]
                exact hus us rfl f hf
              simp only [noQM, countQM_append, countQM_escape, hty, hsp, hjn, htab,
                hu, hcp, hflds]
        | none =>
            cases onC with
            | some onS =>
                simp only at h
                split at h
                · exact Except.noConfusion h
                · simp only [Except.ok.injEq] at h
                  subst h
                  have hos : countQM " ON " = 0 := by decide
                  have honS := hon onS rfl
                  simp only [noQM] at honS
                  simp only [noQM, countQM_append, countQM_escape, hty, hsp, hjn, htab,
                    hos, honS]
            | none => exact Except.noConfusion h

theorem joinLoop_noQM :
    ∀ (entries : List (String × JoinSpec)), (∀ e ∈ entries, WFJoinEntry e) →
      ∀ s, joinLoop entries = .ok s → noQM s := by
  intro entries
  induction entries with
  | nil =>
      intro _ s h
      simp only [joinLoop, Except.ok.injEq] at h
      subst h
      decide
  | cons e rest ih =>
      intro hwf s h
      obtain ⟨tableName, spec⟩ := e
      cases hp : joinPart tableName spec with
      | error msg =>
          simp only [joinLoop, hp] at h
          exact Except.noConfusion h
      | ok part =>
          cases hrest : joinLoop rest with
          | error msg =>
              simp only [joinLoop, hp, hrest] at h
              exact Except.noConfusion h
          | ok restStr =>
              simp only [joinLoop, hp, hrest, Except.ok.injEq] at h
              subst h
              have h1 := joinPart_noQM tableName spec
                (hwf (tableName, spec) (List.mem_cons_self _ _)) part hp
              have h2 := ih (fun x hx => hwf x (List.mem_cons_of_mem _ hx)) restStr hrest
              simp only [noQM] at h1 h2 ⊢
              rw [countQM_append, h1, h2]

theorem createJoin_noQM (join : Option (List (String × JoinSpec)))
    (hwf : ∀ l, join = some l → ∀ e ∈ l, WFJoinEntry e)
    (s : String) (h : createJoin join = .ok s) : noQM s := by
  cases join with
  | none =>
      simp only [createJoin, Except.ok.injEq] at h
      subst h
      decide
  | some l =>
      simp only [createJoin] at h
      split at h
      · simp only [Except.ok.injEq] at h
        subst h
        decide
      · exact joinLoop_noQM l (hwf l rfl) s h

theorem createHaving_inv (having : Option Having) (hwf : WFHaving having)
    (r : ValueHolders) (h : createHaving having = .ok r) :
    countQM r.prepare = r.holders.length := by
  cases having with
  | none =>
      simp only [createHaving, Except.ok.injEq] at h
      subst h
      decide
  | some spec =>
      cases spec with
      | str sql =>
          simp only [createHaving, Except.ok.injEq] at h
          subst h
          simpa using hwf
      | arrH sql params =>
          simp only [createHaving, Except.ok.injEq] at h
          subst h
          simpa using hwf
      | obj fields =>
          cases hf : fieldParts fields with
          | error msg =>
              simp only [createHaving, hf] at h
              exact Except.noConfusion h
          | ok pr =>
              obtain ⟨cs, hs⟩ := pr
              have hinv := fieldParts_inv fields hwf cs hs hf
              simp only [createHaving, hf, Except.ok.injEq] at h
              subst h
              simp only []
              rw [countQM_joinSep " AND " (by decide)]
              exact hinv

theorem buildLimitOffset_noQM (limit offset : Int) :
    noQM (buildLimitOffset limit offset) := by
  have h1 : countQM " LIMIT " = 0 := by decide
  have h2 : countQM ", " = 0 := by decide
  have h3 := countQM_intRepr limit
  have h4 := countQM_intRepr offset
  simp only [noQM] at h3 h4 ⊢
  simp only [buildLimitOffset]
  split <;> simp only [countQM_append, h1, h2, h3, h4]

set_option maxHeartbeats 2000000 in
/-- Invariant of `buildSelect`: for well-formed inputs the compiled SELECT
has exactly one placeholder per parameter. -/
theorem buildSelect_inv (table flds : String) (wh : Option Where)
    (order : Option (List (String × String))) (limit : Option Int) (offset : Int)
    (join : Option (List (String × JoinSpec))) (groupBy : Option GroupBySpec)
    (having : Option Having)
    (htab : noQM table) (hflds : noQM flds)
    (hwh : ∀ w, wh = some w → WFWhere w)
    (hord : ∀ e, order = some e → ∀ p ∈ e, noQM p.1)
    (hjoin : ∀ l, join = some l → ∀ e ∈ l, WFJoinEntry e)
    (hgrp : WFGroupBy groupBy) (hhav : WFHaving having)
    (r : ValueHolders)
    (h : buildSelect table flds wh order limit offset join groupBy having = .ok r) :
    countQM r.prepare = r.holders.length := by
  cases hj : createJoin join with
  | error msg => simp only [buildSelect, hj] at h; exact Except.noConfusion h
  | ok joinStr =>
  cases hw : createWhere wh with
  | error msg => simp only [buildSelect, hj, hw] at h; exact Except.noConfusion h
  | ok whereResult =>
  cases hh : createHaving having with
  | error msg => simp only [buildSelect, hj, hw, hh] at h; exact Except.noConfusion h
  | ok havingResult =>
  have hjq : countQM joinStr = 0 := createJoin_noQM join hjoin joinStr hj
  have hwq := createWhere_inv wh hwh whereResult hw
  have hhq := createHaving_inv having hhav havingResult hh
  have hgq : countQM (createGroupBy groupBy) = 0 := createGroupBy_noQM groupBy hgrp
  have hoq : countQM (createOrder order) = 0 := createOrder_noQM order hord
  have hsel : countQM ("SELECT " ++ flds ++ " FROM " ++ escapeIdentifier table) = 0 := by
    have ha : countQM "SELECT " = 0 := by decide
    have hb : countQM " FROM " = 0 := by decide
    simp only [noQM] at htab hflds
    simp only [countQM_append, countQM_escape, ha, hb, htab, hflds]
  have hW : countQM " WHERE " = 0 := by decide
  have hG : countQM " GROUP BY " = 0 := by decide
  have hH : countQM " HAVING " = 0 := by decide
  have hO : countQM " ORDER BY " = 0 := by decide
  simp only [buildSelect, hj, hw, hh, Except.ok.injEq] at h
  subst h
  repeat' split
  all_goals
    simp only [countQM_append, List.length_append, List.length_nil, hsel, hjq, hwq, hhq,
      hgq, hoq, hW, hG, hH, hO, buildLimitOffset_noQM]
  all_goals omega

/-- Invariant of `createDataFilter`: every UPDATE assignment fragment holds
exactly one placeholder per produced parameter. -/
theorem createDataFilter_inv (key : String) (v : UpdateVal) (hk : noQM key) :
    countQM (createDataFilter key v).prepare = (createDataFilter key v).holders.length := by
  have hkey : countQM (escapeIdentifier key) = 0 := by rw [countQM_escape]; exact hk
  have hq : countQM " = ?" = 1 := by decide
  have hn : countQM " = NULL" = 0 := by decide
  have he : countQM " = " = 0 := by decide
  have hplus : countQM " + ?" = 1 := by decide
  have hminus : countQM " - ?" = 1 := by decide
  have hmul : countQM " * ?" = 1 := by decide
  have hdiv : countQM " / ?" = 1 := by decide
  cases v with
  | nullv => simp only [createDataFilter, countQM_append, hkey, hn, List.length_nil]
  | undef => simp only [createDataFilter]; decide
  | scalar sv =>
      simp only [createDataFilter, countQM_append, hkey, hq, List.length_cons,
        List.length_nil]
  | ops entries =>
      cases entries with
      | nil => simp only [createDataFilter]; decide
      | cons e tl =>
          obtain ⟨op, ov⟩ := e
          cases op <;>
            simp only [createDataFilter, countQM_append, hkey, hq, he, hplus, hminus,
              hmul, hdiv, List.length_cons, List.length_nil]

/-- Summing placeholder counts over fragments whose individual invariant
holds gives the length of the concatenated parameter list. -/
theorem sum_inv_parts :
    ∀ (l : List ValueHolders), (∀ r ∈ l, countQM r.prepare = r.holders.length) →
      ((l.map (·.prepare)).map countQM).sum = ((l.map (·.holders)).flatten).length := by
  intro l
  induction l with
  | nil => intro _; simp
  | cons r tl ih =>
      intro hl
      simp only [List.map_cons, List.sum_cons, List.flatten_cons, List.length_append]
      rw [ih (fun x hx => hl x (List.mem_cons_of_mem _ hx)),
        hl r (List.mem_cons_self _ _)]

set_option maxHeartbeats 1000000 in
/-- Invariant of `buildUpdate`. -/
theorem buildUpdate_inv (table : String) (data : List (String × UpdateVal))
    (wh : Option Where) (order : Option (List (String × String))) (limit : Option Int)
    (htab : noQM table) (hkeys : ∀ e ∈ data, noQM e.1)
    (hwh : ∀ w, wh = some w → WFWhere w)
    (hord : ∀ e, order = some e → ∀ p ∈ e, noQM p.1)
    (r : ValueHolders)
    (h : buildUpdate table data wh order limit = .ok r) :
    countQM r.prepare = r.holders.length := by
  have hkept : ∀ x ∈ (data.map fun e => createDataFilter e.1 e.2).filter
      (fun q => q.prepare ≠ ""), countQM x.prepare = x.holders.length := by
    intro x hx
    have hx2 := List.mem_filter.mp hx
    rcases List.mem_map.mp hx2.1 with ⟨e, he, rfl⟩
    exact createDataFilter_inv e.1 e.2 (hkeys e he)
  simp only [buildUpdate] at h
  split at h
  · exact Except.noConfusion h
  · cases hw : createWhere wh with
    | error msg => rw [hw] at h; exact Except.noConfusion h
    | ok whereResult =>
        rw [hw] at h
        simp only [Except.ok.injEq] at h
        subst h
        have hwq := createWhere_inv wh hwh whereResult hw
        have hoq : countQM (createOrder order) = 0 := createOrder_noQM order hord
        have hset := sum_inv_parts _ hkept
        have hup : countQM ("UPDATE " ++ escapeIdentifier table ++ " SET ") = 0 := by
          have ha : countQM "UPDATE " = 0 := by decide
          have hb : countQM " SET " = 0 := by decide
          simp only [noQM] at htab
          simp only [countQM_append, countQM_escape, ha, hb, htab]
        have hjoin := countQM_joinSep " AND " (by decide)
          (((data.map fun e => createDataFilter e.1 e.2).filter
            (fun q => q.prepare ≠ "")).map (·.prepare))
        have hW : countQM " WHERE " = 0 := by decide
        have hO : countQM " ORDER BY " = 0 := by decide
        have hL : countQM " LIMIT " = 0 := by decide
        have hsep : countQM ", " = 0 := by decide
        have hjoin2 := countQM_joinSep ", " hsep
          (((data.map fun e => createDataFilter e.1 e.2).filter
            (fun q => q.prepare ≠ "")).map (·.prepare))
        repeat' split
        all_goals
          simp only [countQM_append, List.length_append, List.length_nil, hup, hwq, hoq,
            hW, hO, hL, hjoin2, countQM_intRepr]
        all_goals omega

/-- Invariant of `buildDelete`. -/
theorem buildDelete_inv (table : String) (wh : Option Where)
    (order : Option (List (String × String))) (limit : Option Int)
    (htab : noQM table)
    (hwh : ∀ w, wh = some w → WFWhere w)
    (hord : ∀ e, order = some e → ∀ p ∈ e, noQM p.1)
    (r : ValueHolders)
    (h : buildDelete table wh order limit = .ok r) :
    countQM r.prepare = r.holders.length := by
  cases hw : createWhere wh with
  | error msg => simp only [buildDelete, hw] at h; exact Except.noConfusion h
  | ok whereResult =>
      simp only [buildDelete, hw, Except.ok.injEq] at h
      subst h
      have hwq := createWhere_inv wh hwh whereResult hw
      have hoq : countQM (createOrder order) = 0 := createOrder_noQM order hord
      have hdel : countQM ("DELETE FROM " ++ escapeIdentifier table) = 0 := by
        have ha : countQM "DELETE FROM " = 0 := by decide
        simp only [noQM] at htab
        simp only [countQM_append, countQM_escape, ha, htab]
      have hW : countQM " WHERE " = 0 := by decide
      have hO : countQM " ORDER BY " = 0 := by decide
      have hL : countQM " LIMIT " = 0 := by decide
      repeat' split
      all_goals
        simp only [countQM_append, List.length_append, List.length_nil, hdel, hwq, hoq,
          hW, hO, hL, countQM_intRepr]
      all_goals omega

set_option maxHeartbeats 1000000 in
/-- Invariant of `buildCount`. -/
theorem buildCount_inv (table : String) (wh : Option Where)
    (join : Option (List (String × JoinSpec))) (groupBy : Option GroupBySpec)
    (having : Option Having)
    (htab : noQM table)
    (hwh : ∀ w, wh = some w → WFWhere w)
    (hjoin : ∀ l, join = some l → ∀ e ∈ l, WFJoinEntry e)
    (hgrp : WFGroupBy groupBy) (hhav : WFHaving having)
    (r : ValueHolders)
    (h : buildCount table wh join groupBy having = .ok r) :
    countQM r.prepare = r.holders.length := by
  cases hj : createJoin join with
  | error msg => simp only [buildCount, hj] at h; exact Except.noConfusion h
  | ok joinStr =>
  cases hw : createWhere wh with
  | error msg => simp only [buildCount, hj, hw] at h; exact Except.noConfusion h
  | ok whereResult =>
  cases hh : createHaving having with
  | error msg => simp only [buildCount, hj, hw, hh] at h; exact Except.noConfusion h
  | ok havingResult =>
  have hjq : countQM joinStr = 0 := createJoin_noQM join hjoin joinStr hj
  have hwq := createWhere_inv wh hwh whereResult hw
  have hhq := createHaving_inv having hhav havingResult hh
  have hgq : countQM (createGroupBy groupBy) = 0 := createGroupBy_noQM groupBy hgrp
  have hsel : countQM ("SELECT COUNT(*) as " ++ escapeIdentifier "total_num" ++ " FROM " ++
      escapeIdentifier table) = 0 := by
    have ha : countQM "SELECT COUNT(*) as " = 0 := by decide
    have hb : countQM " FROM " = 0 := by decide
    have hc : countQM "total_num" = 0 := by decide
    simp only [noQM] at htab
    simp only [countQM_append, countQM_escape, ha, hb, hc, htab]
  have hW : countQM " WHERE " = 0 := by decide
  have hG : countQM " GROUP BY " = 0 := by decide
  have hH : countQM " HAVING " = 0 := by decide
  simp only [buildCount, hj, hw, hh, Except.ok.injEq] at h
  subst h
  repeat' split
  all_goals
    simp only [countQM_append, List.length_append, List.length_nil, hsel, hjq, hwq, hhq,
      hgq, hW, hG, hH]
  all_goals omega

/-- Invariant of `buildExists`. -/
theorem buildExists_inv (table : String) (wh : Option Where)
    (htab : noQM table)
    (hwh : ∀ w, wh = some w → WFWhere w)
    (r : ValueHolders)
    (h : buildExists table wh = .ok r) :
    countQM r.prepare = r.holders.length := by
  cases hw : createWhere wh with
  | error msg => simp only [buildExists, hw] at h; exact Except.noConfusion h
  | ok whereResult =>
      simp only [buildExists, hw, Except.ok.injEq] at h
      subst h
      have hwq := createWhere_inv wh hwh whereResult hw
      have hsel : countQM ("SELECT 1 FROM " ++ escapeIdentifier table) = 0 := by
        have ha : countQM "SELECT 1 FROM " = 0 := by decide
        simp only [noQM] at htab
        simp only [countQM_append, countQM_escape, ha, htab]
      have hW : countQM " WHERE " = 0 := by decide
      have hL : countQM " LIMIT 1" = 0 := by decide
      repeat' split
      all_goals
        simp only [countQM_append, List.length_append, List.length_nil, hsel, hwq, hW, hL]
      all_goals omega

/-- Sum of a constant over a list. -/
theorem sum_const_nat {α : Type} (l : List α) (k : Nat) :
    (l.map fun _ => k).sum = l.length * k := by
  induction l with
  | nil => simp
  | cons a t ih => simp [ih]; ring

/-- Sum of placeholder counts over mapped fragments of constant count. -/
theorem sum_countQM_map {α : Type} (l : List α) (g : α → String) (k : Nat)
    (hg : ∀ x, countQM (g x) = k) : ((l.map g).map countQM).sum = l.length * k := by
  induction l with
  | nil => simp
  | cons a t ih =>
      simp only [List.map_cons, List.sum_cons, List.length_cons, hg]
      rw [ih]; ring

/-- Sum of lengths over mapped lists of constant length. -/
theorem sum_length_map {α β : Type} (l : List α) (g : α → List β) (k : Nat)
    (hg : ∀ x, (g x).length = k) : ((l.map g).map List.length).sum = l.length * k := by
  induction l with
  | nil => simp
  | cons a t ih =>
      simp only [List.map_cons, List.sum_cons, List.length_cons, hg]
      rw [ih]; ring

/-- Invariant of `buildInsert`: each row contributes one placeholder and one
parameter per field of the first row. -/
theorem buildInsert_inv (table : String) (data : List (List (String × Scalar)))
    (htab : noQM table) (hkeys : ∀ row ∈ data, ∀ e ∈ row, noQM e.1)
    (r : ValueHolders) (h : buildInsert table data = .ok r) :
    countQM r.prepare = r.holders.length := by
  cases data with
  | nil => exact Except.noConfusion h
  | cons first rest =>
      simp only [buildInsert, Except.ok.injEq] at h
      subst h
      have hsql : countQM ("INSERT INTO " ++ escapeIdentifier table ++ " (" ++
          joinSep ", " ((first.map (·.1)).map escapeIdentifier) ++ ") VALUES") = 0 := by
        have ha : countQM "INSERT INTO " = 0 := by decide
        have hb : countQM " (" = 0 := by decide
        have hc : countQM ") VALUES" = 0 := by decide
        have hd : countQM (joinSep ", " ((first.map (·.1)).map escapeIdentifier)) = 0 := by
          refine countQM_joinSep_zero ", " (by decide) _ ?_
          intro p hp
          rcases List.mem_map.mp hp with ⟨f, hf, rfl⟩
          rcases List.mem_map.mp hf with ⟨e, he, rfl⟩
          simp only [noQM, countQM_escape]
          exact hkeys first (List.mem_cons_self _ _) e he
        simp only [noQM] at htab
        simp only [countQM_append, countQM_escape, ha, hb, hc, hd, htab]
      have hrow : countQM ("(" ++ joinSep ", " ((first.map (·.1)).map fun _ => "?") ++ ")") =
          first.length := by
        have ha : countQM "(" = 0 := by decide
        have hb : countQM ")" = 0 := by decide
        simp only [countQM_append, ha, hb]
        rw [countQM_joinSep ", " (by decide), sum_countQM_qmarks]
        simp
      have hsp : countQM " " = 0 := by decide
      simp only [countQM_append, hsql, hsp]
      rw [countQM_joinSep ", " (by decide)]
      rw [List.length_flatten]
      rw [sum_countQM_map (first :: rest) _ first.length (fun _ => hrow)]
      rw [sum_length_map (first :: rest) _ first.length (fun row => by simp)]
      omega

/-- Invariant of `buildUpsert`. -/
theorem buildUpsert_inv (table : String) (data : List (String × Scalar))
    (uniqueKeys : List String) (updateData : Option (List (String × Scalar)))
    (htab : noQM table) (hkeys : ∀ e ∈ data, noQM e.1)
    (hupd : ∀ l, updateData = some l → ∀ e ∈ l, noQM e.1) :
    countQM (buildUpsert table data uniqueKeys updateData).prepare =
      (buildUpsert table data uniqueKeys updateData).holders.length := by
  have hupdKeys : ∀ e ∈ updateData.getD data, noQM e.1 := by
    cases updateData with
    | none => simpa using hkeys
    | some l => simpa using hupd l rfl
  have hsql0 : countQM ("INSERT INTO " ++ escapeIdentifier table ++ " (" ++
      joinSep ", " (data.map fun p => escapeIdentifier p.1) ++ ") VALUES (" ++
      joinSep ", " ((data.map fun p => escapeIdentifier p.1).map fun _ => "?") ++ ")") =
      data.length := by
    have ha : countQM "INSERT INTO " = 0 := by decide
    have hb : countQM " (" = 0 := by decide
    have hc : countQM ") VALUES (" = 0 := by decide
    have hd : countQM ")" = 0 := by decide
    have hflds : countQM (joinSep ", " (data.map fun p => escapeIdentifier p.1)) = 0 := by
      refine countQM_joinSep_zero ", " (by decide) _ ?_
      intro p hp
      rcases List.mem_map.mp hp with ⟨e, he, rfl⟩
      simp only [noQM, countQM_escape]
      exact hkeys e he
    have hph : countQM (joinSep ", "
        ((data.map fun p => escapeIdentifier p.1).map fun _ => "?")) = data.length := by
      rw [countQM_joinSep ", " (by decide), sum_countQM_qmarks]
      simp
    simp only [noQM] at htab
    simp only [countQM_append, countQM_escape, ha, hb, hc, hd, hflds, hph, htab]
    omega
  have hupdCnt : countQM (joinSep ", "
      (((updateData.getD data).filter (fun p => ¬ uniqueKeys.contains p.1)).map
        fun p => escapeIdentifier p.1 ++ " = ?")) =
      ((updateData.getD data).filter (fun p => ¬ uniqueKeys.contains p.1)).length := by
    rw [countQM_joinSep ", " (by decide)]
    have : ∀ p ∈ ((updateData.getD data).filter (fun p => ¬ uniqueKeys.contains p.1)).map
        (fun p => escapeIdentifier p.1 ++ " = ?"), countQM p = 1 := by
      intro p hp
      rcases List.mem_map.mp hp with ⟨e, he, rfl⟩
      have hk := hupdKeys e (List.mem_of_mem_filter he)
      have hq : countQM " = ?" = 1 := by decide
      simp only [noQM] at hk
      simp only [countQM_append, countQM_escape, hk, hq]
    calc (((((updateData.getD data).filter (fun p => ¬ uniqueKeys.contains p.1)).map
          (fun p => escapeIdentifier p.1 ++ " = ?")).map countQM)).sum
        = ((((updateData.getD data).filter (fun p => ¬ uniqueKeys.contains p.1)).map
          (fun p => escapeIdentifier p.1 ++ " = ?")).map (fun _ => 1)).sum := by
          congr 1
          exact List.map_congr_left fun p hp => this p hp
      _ = _ := by rw [sum_const_nat]; simp
  simp only [buildUpsert]
  split
  · have hon : countQM " ON DUPLICATE KEY UPDATE " = 0 := by decide
    simp only [countQM_append, hsql0, hon, hupdCnt, List.length_append, List.length_map]
    omega
  · simp only [hsql0, List.length_map]

end MySQLDialect

/-- C3 counterexample: the claim as stated quantifies over raw-SQL-fragment
descriptors as well, but a raw fragment is passed through verbatim with an
empty parameter list, so a fragment that itself contains a placeholder
character yields one placeholder and zero parameters. -/
theorem c3_counterexample :
    MySQLDialect.buildSelect "t" "*" (some (.raw "a = ?")) none none 0 none none none =
      .ok ⟨"SELECT * FROM `t` WHERE a = ?", []⟩ ∧
    countQM "SELECT * FROM `t` WHERE a = ?" = 1 ∧
    ([] : List Holder).length = 0 :=
  ⟨rfl, by decide, rfl⟩

/-- C3 (amended): for every Compiled Statement produced by
`buildSelect` / `buildInsert` / `buildUpdate` / `buildDelete` /
`buildCount` / `buildExists` / `buildUpsert` over descriptors whose
identifiers (table and field names, select list, join tables, ON
conditions, USING columns, GROUP BY and ORDER BY fields) contain no
placeholder character and whose raw SQL fragments carry exactly one
placeholder per accompanying parameter (zero for a bare raw string), the
number of positional placeholders in the SQL text equals the length of the
returned parameter list. -/
theorem c3_placeholder_invariant :
    (∀ (table flds : String) (wh : Option Where)
       (order : Option (List (String × String))) (limit : Option Int) (offset : Int)
       (join : Option (List (String × MySQLDialect.JoinSpec)))
       (groupBy : Option MySQLDialect.GroupBySpec) (having : Option MySQLDialect.Having),
       noQM table → noQM flds →
       (∀ w, wh = some w → WFWhere w) →
       (∀ e, order = some e → ∀ p ∈ e, noQM p.1) →
       (∀ l, join = some l → ∀ e ∈ l, MySQLDialect.WFJoinEntry e) →
       MySQLDialect.WFGroupBy groupBy → MySQLDialect.WFHaving having →
       ∀ r, MySQLDialect.buildSelect table flds wh order limit offset join groupBy having =
         .ok r → countQM r.prepare = r.holders.length) ∧
    (∀ (table : String) (data : List (List (String × Scalar))),
       noQM table → (∀ row ∈ data, ∀ e ∈ row, noQM e.1) →
       ∀ r, MySQLDialect.buildInsert table data = .ok r →
         countQM r.prepare = r.holders.length) ∧
    (∀ (table : String) (data : List (String × UpdateVal)) (wh : Option Where)
       (order : Option (List (String × String))) (limit : Option Int),
       noQM table → (∀ e ∈ data, noQM e.1) →
       (∀ w, wh = some w → WFWhere w) →
       (∀ e, order = some e → ∀ p ∈ e, noQM p.1) →
       ∀ r, MySQLDialect.buildUpdate table data wh order limit = .ok r →
         countQM r.prepare = r.holders.length) ∧
    (∀ (table : String) (wh : Option Where)
       (order : Option (List (String × String))) (limit : Option Int),
       noQM table →
       (∀ w, wh = some w → WFWhere w) →
       (∀ e, order = some e → ∀ p ∈ e, noQM p.1) →
       ∀ r, MySQLDialect.buildDelete table wh order limit = .ok r →
         countQM r.prepare = r.holders.length) ∧
    (∀ (table : String) (wh : Option Where)
       (join : Option (List (String × MySQLDialect.JoinSpec)))
       (groupBy : Option MySQLDialect.GroupBySpec) (having : Option MySQLDialect.Having),
       noQM table →
       (∀ w, wh = some w → WFWhere w) →
       (∀ l, join = some l → ∀ e ∈ l, MySQLDialect.WFJoinEntry e) →
       MySQLDialect.WFGroupBy groupBy → MySQLDialect.WFHaving having →
       ∀ r, MySQLDialect.buildCount table wh join groupBy having = .ok r →
         countQM r.prepare = r.holders.length) ∧
    (∀ (table : String) (wh : Option Where),
       noQM table → (∀ w, wh = some w → WFWhere w) →
       ∀ r, MySQLDialect.buildExists table wh = .ok r →
         countQM r.prepare = r.holders.length) ∧
    (∀ (table : String) (data : List (String × Scalar)) (uniqueKeys : List String)
       (updateData : Option (List (String × Scalar))),
       noQM table → (∀ e ∈ data, noQM e.1) →
       (∀ l, updateData = some l → ∀ e ∈ l, noQM e.1) →
       countQM (MySQLDialect.buildUpsert table data uniqueKeys updateData).prepare =
         (MySQLDialect.buildUpsert table data uniqueKeys updateData).holders.length) := by
  refine ⟨?_, ?_, ?_, ?_, ?_, ?_, ?_⟩
  · intro table flds wh order limit offset join groupBy having htab hflds hwh hord hjoin
      hgrp hhav r h
    exact MySQLDialect.buildSelect_inv table flds wh order limit offset join groupBy having
      htab hflds hwh hord hjoin hgrp hhav r h
  · intro table data htab hkeys r h
    exact MySQLDialect.buildInsert_inv table data htab hkeys r h
  · intro table data wh order limit htab hkeys hwh hord r h
    exact MySQLDialect.buildUpdate_inv table data wh order limit htab hkeys hwh hord r h
  · intro table wh order limit htab hwh hord r h
    exact MySQLDialect.buildDelete_inv table wh order limit htab hwh hord r h
  · intro table wh join groupBy having htab hwh hjoin hgrp hhav r h
    exact MySQLDialect.buildCount_inv table wh join groupBy having htab hwh hjoin hgrp
      hhav r h
  · intro table wh htab hwh r h
    exact MySQLDialect.buildExists_inv table wh htab hwh r h
  · intro table data uniqueKeys updateData htab hkeys hupd
    exact MySQLDialect.buildUpsert_inv table data uniqueKeys updateData htab hkeys hupd

/-- C3 witness: the invariant instantiated on a concrete SELECT with an
object-form WHERE descriptor. -/
theorem c3_witness :
    countQM "SELECT * FROM `users` WHERE `age` = ?" = [Holder.hn 18].length := by
  have hwf : WFWhere (Where.obj [("age", FieldVal.scalar (Scalar.i 18))] none none) :=
    WFWhere.obj _ _ _ (by decide) (fun l hl => Option.noConfusion hl)
      (fun l hl => Option.noConfusion hl)
  have hr : MySQLDialect.buildSelect "users" "*"
      (some (Where.obj [("age", FieldVal.scalar (Scalar.i 18))] none none))
      none none 0 none none none =
      .ok ⟨"SELECT * FROM `users` WHERE `age` = ?", [Holder.hn 18]⟩ := rfl
  exact c3_placeholder_invariant.1 "users" "*" _ none none 0 none none none
    (by decide) (by decide)
    (fun w hw => by injection hw with hw; exact hw ▸ hwf)
    (fun e he => Option.noConfusion he)
    (fun l hl => Option.noConfusion hl)
    trivial trivial _ hr

namespace MySQLDialect

theorem escape_length (key : String) : (escapeIdentifier key).length = key.length + 2 := by
  have h1 : ("`" : String).length = 1 := by decide
  simp [escapeIdentifier, String.length_append, h1]
  omega

/-- Every successfully compiled operator condition is a non-empty fragment
(it starts with the escaped field name). -/
theorem createOperatorCondition_ok_ne (key : String) (e : OpEntry) (r : ValueHolders)
    (h : createOperatorCondition key e = .ok r) : r.prepare ≠ "" := by
  have h0 : ("" : String).length = 0 := by decide
  cases e with
  | cmp op v =>
      simp only [createOperatorCondition, Except.ok.injEq] at h
      subst h
      intro heq
      have hl := congrArg String.length heq
      simp only [String.length_append, escape_length] at hl
      rw [h0] at hl
      omega
  | range op v =>
      cases v with
      | sc sv => cases op <;> exact Except.noConfusion h
      | arr vs =>
          cases op with
          | inOp | notIn =>
              simp only [createOperatorCondition] at h
              split at h
              · exact Except.noConfusion h
              · simp only [Except.ok.injEq] at h
                subst h
                intro heq
                have hl := congrArg String.length heq
                simp only [String.length_append, escape_length] at hl
                rw [h0] at hl
                omega
          | between | notBetween =>
              simp only [createOperatorCondition] at h
              split at h
              · simp only [Except.ok.injEq] at h
                subst h
                intro heq
                have hl := congrArg String.length heq
                simp only [String.length_append, escape_length] at hl
                rw [h0] at hl
                omega
              · exact Except.noConfusion h
  | strm op v =>
      simp only [createOperatorCondition, Except.ok.injEq] at h
      subst h
      intro heq
      have hl := congrArg String.length heq
      simp only [String.length_append, escape_length] at hl
      rw [h0] at hl
      omega
  | conv op v =>
      cases op <;>
        (simp only [createOperatorCondition, Except.ok.injEq] at h
         subst h
         intro heq
         have hl := congrArg String.length heq
         simp only [String.length_append, escape_length] at hl
         rw [h0] at hl
         omega)
  | nullChk op v =>
      cases op <;> cases v <;>
        (simp only [createOperatorCondition, Bool.false_eq_true, if_true, if_false,
           Except.ok.injEq] at h
         subst h
         intro heq
         have hl := congrArg String.length heq
         simp only [String.length_append, escape_length] at hl
         rw [h0] at hl
         omega)

/-- Structure of a successful operator loop: one fragment per operator, in
order, with the parameter lists concatenated. -/
theorem opConditions_full (key : String) :
    ∀ (entries : List OpEntry) (cs : List String) (hs : List Holder),
      opConditions key entries = .ok (cs, hs) →
      ∃ results : List ValueHolders,
        List.Forall₂ (fun e q => createOperatorCondition key e = .ok q) entries results ∧
        cs = results.map (·.prepare) ∧
        hs = (results.map (·.holders)).flatten := by
  intro entries
  induction entries with
  | nil =>
      intro cs hs h
      simp only [opConditions, Except.ok.injEq, Prod.mk.injEq] at h
      obtain ⟨h1, h2⟩ := h
      subst h1; subst h2
      exact ⟨[], List.Forall₂.nil, rfl, rfl⟩
  | cons e rest ih =>
      intro cs hs h
      cases hr : createOperatorCondition key e with
      | error msg =>
          simp only [opConditions, hr] at h
          exact Except.noConfusion h
      | ok r =>
          cases hrest : opConditions key rest with
          | error msg =>
              simp only [opConditions, hr, hrest] at h
              exact Except.noConfusion h
          | ok pr =>
              obtain ⟨cs', hs'⟩ := pr
              obtain ⟨results', hfa, hcs, hhs⟩ := ih cs' hs' hrest
              simp only [opConditions, hr, hrest] at h
              split at h
              · simp only [Except.ok.injEq, Prod.mk.injEq] at h
                obtain ⟨h1, h2⟩ := h
                subst h1; subst h2
                refine ⟨r :: results', List.Forall₂.cons hr hfa, ?_, ?_⟩
                · simp [hcs]
                · simp [hhs]
              · rename_i hne
                exact absurd (not_not.mp hne) (createOperatorCondition_ok_ne key e r hr)

end MySQLDialect

/-- Elements on the right of a `Forall₂` inherit any property implied by
the relation. -/
theorem forall₂_right {α β : Type} {R : α → β → Prop} {P : β → Prop} :
    ∀ {l₁ : List α} {l₂ : List β}, List.Forall₂ R l₁ l₂ →
      (∀ a b, R a b → P b) → ∀ b ∈ l₂, P b := by
  intro l₁ l₂ h hp
  induction h with
  | nil => intro b hb; cases hb
  | cons hr _ ih =>
      intro b hb
      rcases List.mem_cons.mp hb with h2 | h2
      · subst h2; exact hp _ _ hr
      · exact ih b h2

/-- C9: compiling the single-field filter `age: gte 18, lt 60` yields the
parenthesised conjunction of the two comparisons with parameters in order,
and in general an operator object compiles to one fragment per operator,
joined with AND and wrapped in parentheses exactly when more than one
operator is present. -/
theorem c9_operator_object_compilation :
    (MySQLDialect.createFilter "age"
        (.ops [.cmp .gte (.i 18), .cmp .lt (.i 60)]) =
      .ok ⟨"(" ++ MySQLDialect.escapeIdentifier "age" ++ " >= ? AND " ++
            MySQLDialect.escapeIdentifier "age" ++ " < ?)",
           [.hn 18, .hn 60]⟩) ∧
    (∀ (key : String) (entries : List OpEntry) (r : ValueHolders),
       MySQLDialect.createFilter key (.ops entries) = .ok r →
       ∃ results : List ValueHolders,
         List.Forall₂ (fun e q => MySQLDialect.createOperatorCondition key e = .ok q)
           entries results ∧
         (∀ q ∈ results, q.prepare ≠ "") ∧
         r.prepare = (if 1 < entries.length then
             "(" ++ joinSep " AND " (results.map (·.prepare)) ++ ")"
           else joinSep " AND " (results.map (·.prepare))) ∧
         r.holders = (results.map (·.holders)).flatten) := by
  constructor
  · rfl
  · intro key entries r h
    cases hop : MySQLDialect.opConditions key entries with
    | error msg =>
        simp only [MySQLDialect.createFilter, hop] at h
        exact Except.noConfusion h
    | ok pr =>
        obtain ⟨cs, hs⟩ := pr
        obtain ⟨results, hfa, hcs, hhs⟩ :=
          MySQLDialect.opConditions_full key entries cs hs hop
        have hne : ∀ q ∈ results, q.prepare ≠ "" :=
          forall₂_right hfa
            (fun e q hq => MySQLDialect.createOperatorCondition_ok_ne key e q hq)
        have hlen : entries.length = results.length := hfa.length_eq
        simp only [MySQLDialect.createFilter, hop] at h
        subst hcs
        subst hhs
        refine ⟨results, hfa, hne, ?_⟩
        cases hm : results.map (·.prepare) with
        | nil =>
            rw [hm] at h
            simp only [Except.ok.injEq] at h
            subst h
            have hrn : results = [] := List.map_eq_nil_iff.mp hm
            subst hrn
            simp only [List.length_nil] at hlen
            rw [hlen]
            constructor
            · simp [joinSep]
            · simp
        | cons c ctl =>
            cases ctl with
            | nil =>
                rw [hm] at h
                simp only [Except.ok.injEq] at h
                subst h
                have hl1 : results.length = 1 := by
                  have := congrArg List.length hm
                  simpa using this
                rw [hlen, hl1]
                constructor
                · simp only [Nat.lt_irrefl, if_false]
                  rfl
                · rfl
            | cons c2 ctl2 =>
                rw [hm] at h
                simp only [Except.ok.injEq] at h
                subst h
                have hl2 : 2 ≤ results.length := by
                  have := congrArg List.length hm
                  simp at this
                  omega
                rw [hlen]
                constructor
                · rw [if_pos (by omega)]
                · rfl

/-- C9 witness: the general structure instantiated on the concrete filter
`age: gte 18, lt 60`. -/
theorem c9_witness :
    ∃ results : List ValueHolders,
      List.Forall₂
        (fun e q => MySQLDialect.createOperatorCondition "age" e = .ok q)
        [.cmp .gte (.i 18), .cmp .lt (.i 60)] results ∧
      (∀ q ∈ results, q.prepare ≠ "") ∧
      ("(`age` >= ? AND `age` < ?)" : String) =
        (if 1 < ([OpEntry.cmp .gte (.i 18), OpEntry.cmp .lt (.i 60)] : List OpEntry).length
         then "(" ++ joinSep " AND " (results.map (·.prepare)) ++ ")"
         else joinSep " AND " (results.map (·.prepare))) ∧
      ([Holder.hn 18, Holder.hn 60] : List Holder) =
        (results.map (·.holders)).flatten :=
  c9_operator_object_compilation.2 "age" [.cmp .gte (.i 18), .cmp .lt (.i 60)]
    ⟨"(`age` >= ? AND `age` < ?)", [.hn 18, .hn 60]⟩ rfl

/-- C6: a `Table.update` whose data yields zero resolvable field
assignments (empty object, all values undefined, or empty operator
objects) returns success and records an update with zero affected rows;
the compiler's `No fields to update` error never reaches the caller. -/
theorem c6_update_empty_noop :
    ∀ (exec : ValueHolders → ResultHeader) (tableName : String)
      (data : List (String × UpdateVal)) (wh : Option Where)
      (order : Option (List (String × String))) (limit : Option Int),
      (∀ e ∈ data, (MySQLDialect.createDataFilter e.1 e.2).prepare = "") →
      Table.update exec tableName data wh order limit =
        .ok (true, { type := .update, affectedRows := 0 }) := by
  intro exec tableName data wh order limit hempty
  have hkept : (data.map fun e => MySQLDialect.createDataFilter e.1 e.2).filter
      (fun r => r.prepare ≠ "") = [] := by
    rw [List.filter_eq_nil_iff]
    intro a ha
    rcases List.mem_map.mp ha with ⟨e, he, rfl⟩
    simpa using hempty e he
  have hbuild : MySQLDialect.buildUpdate tableName data wh order limit =
      .error "No fields to update" := by
    simp only [MySQLDialect.buildUpdate, hkept]
    rfl
  simp only [Table.update, hbuild]
  rfl

/-- C6 witness: an update payload of one undefined value and one empty
operator object. -/
theorem c6_witness :
    (∀ e ∈ ([("x", UpdateVal.undef), ("y", UpdateVal.ops [])] :
        List (String × UpdateVal)),
      (MySQLDialect.createDataFilter e.1 e.2).prepare = "") ∧
    Table.update (fun _ => ⟨7, none⟩) "users"
        [("x", UpdateVal.undef), ("y", UpdateVal.ops [])] none none none =
      .ok (true, { type := .update, affectedRows := 0 }) :=
  ⟨by decide, c6_update_empty_noop (fun _ => ⟨7, none⟩) "users" _ none none none (by decide)⟩

/-- C7: a successful `Table.upsert` (non-empty unique keys, all present in
the data) records an upsert whose action is `insert` when the backend
reports one affected row and `update` when it reports two, together with
the affected-row count and insert identity. -/
theorem c7_upsert_action :
    ∀ (exec : ValueHolders → ResultHeader) (tableName : String)
      (data : List (String × Scalar)) (uniqueKeys : List String)
      (updateData : Option (List (String × Scalar))),
      uniqueKeys.length ≠ 0 →
      (∀ k ∈ uniqueKeys, (data.map (·.1)).contains k) →
      ∀ header,
        exec (MySQLDialect.buildUpsert tableName data uniqueKeys updateData) = header →
        ∃ res : OperationResult,
          Table.upsert exec tableName data uniqueKeys updateData = .ok (true, res) ∧
          res.type = .upsert ∧
          res.affectedRows = header.affectedRows ∧
          res.insertId = header.insertId ∧
          (header.affectedRows = 1 → res.action = some .insert) ∧
          (header.affectedRows = 2 → res.action = some .update) := by
  intro exec tableName data uniqueKeys updateData hne hkeys header hexec
  have hfind : uniqueKeys.find? (fun k => !((data.map (·.1)).contains k)) = none := by
    rw [List.find?_eq_none]
    intro k hk
    have hc := hkeys k hk
    simp only [hc, Bool.not_true]
    exact Bool.false_ne_true
  refine ⟨{ type := .upsert, affectedRows := header.affectedRows,
            insertId := header.insertId,
            action := some (if header.affectedRows = 1 then .insert else .update) },
          ?_, rfl, rfl, rfl, ?_, ?_⟩
  · simp only [Table.upsert, if_neg hne, hfind, hexec]
  · intro h1
    rw [if_pos h1]
  · intro h2
    rw [if_neg (by omega)]

/-- C7 witness: one affected row reports `insert`, two report `update`. -/
theorem c7_witness :
    (∃ res : OperationResult,
      Table.upsert (fun _ => ⟨1, some 5⟩) "user_stats" [("user_id", Scalar.i 123)]
        ["user_id"] none = .ok (true, res) ∧
      res.type = .upsert ∧ res.affectedRows = 1 ∧ res.insertId = some 5 ∧
      (1 = 1 → res.action = some .insert) ∧ (1 = 2 → res.action = some .update)) :=
  c7_upsert_action (fun _ => ⟨1, some 5⟩) "user_stats" [("user_id", Scalar.i 123)]
    ["user_id"] none (by decide) (by decide) ⟨1, some 5⟩ rfl

/-- C10 (implicit): on a successful `Table.upsert`, every backend-reported
affected-row count other than one — including zero, reported when the row
exists unchanged — is recorded as action `update`; only exactly one
affected row is recorded as `insert`. -/
theorem c10_upsert_action_default :
    ∀ (exec : ValueHolders → ResultHeader) (tableName : String)
      (data : List (String × Scalar)) (uniqueKeys : List String)
      (updateData : Option (List (String × Scalar))),
      uniqueKeys.length ≠ 0 →
      (∀ k ∈ uniqueKeys, (data.map (·.1)).contains k) →
      ∀ header,
        exec (MySQLDialect.buildUpsert tableName data uniqueKeys updateData) = header →
        ∃ res : OperationResult,
          Table.upsert exec tableName data uniqueKeys updateData = .ok (true, res) ∧
          res.action = some (if header.affectedRows = 1 then .insert else .update) ∧
          (header.affectedRows ≠ 1 → res.action = some .update) ∧
          (header.affectedRows = 0 → res.action = some .update) ∧
          (res.action = some .insert ↔ header.affectedRows = 1) := by
  intro exec tableName data uniqueKeys updateData hne hkeys header hexec
  have hfind : uniqueKeys.find? (fun k => !((data.map (·.1)).contains k)) = none := by
    rw [List.find?_eq_none]
    intro k hk
    have hc := hkeys k hk
    simp only [hc, Bool.not_true]
    exact Bool.false_ne_true
  refine ⟨{ type := .upsert, affectedRows := header.affectedRows,
            insertId := header.insertId,
            action := some (if header.affectedRows = 1 then .insert else .update) },
          ?_, rfl, ?_, ?_, ?_⟩
  · simp only [Table.upsert, if_neg hne, hfind, hexec]
  · intro h1
    rw [if_neg h1]
  · intro h0
    rw [if_neg (by omega)]
  · constructor
    · intro heq
      by_contra hne1
      rw [if_neg hne1] at heq
      simp at heq
    · intro h1
      rw [if_pos h1]

/-- C10 witness: zero affected rows is recorded as an update, not an
insert. -/
theorem c10_witness :
    (∃ res : OperationResult,
      Table.upsert (fun _ => ⟨0, none⟩) "user_stats" [("user_id", Scalar.i 123)]
        ["user_id"] none = .ok (true, res) ∧
      res.action = some (if (0 : Nat) = 1 then .insert else .update) ∧
      ((0 : Nat) ≠ 1 → res.action = some .update) ∧
      ((0 : Nat) = 0 → res.action = some .update) ∧
      (res.action = some .insert ↔ (0 : Nat) = 1)) :=
  c10_upsert_action_default (fun _ => ⟨0, none⟩) "user_stats" [("user_id", Scalar.i 123)]
    ["user_id"] none (by decide) (by decide) ⟨0, none⟩ rfl

namespace Table

/-- Permuted key lists sort to the same canonical list. -/
theorem sortKeys_eq_of_perm (l₁ l₂ : List String) (h : List.Perm l₁ l₂) :
    sortKeys l₁ = sortKeys l₂ :=
  List.eq_of_perm_of_sorted
    ((List.perm_insertionSort _ l₁).trans (h.trans (List.perm_insertionSort _ l₂).symm))
    (List.sorted_insertionSort _ _) (List.sorted_insertionSort _ _)

/-- Key lists with the same canonical sort are permutations of each
other. -/
theorem perm_of_sortKeys_eq (l₁ l₂ : List String) (h : sortKeys l₁ = sortKeys l₂) :
    List.Perm l₁ l₂ := by
  have h1 : List.Perm (sortKeys l₁) l₁ := List.perm_insertionSort (· ≤ ·) l₁
  have h2 : List.Perm (sortKeys l₂) l₂ := List.perm_insertionSort (· ≤ ·) l₂
  rw [← h] at h2
  exact h1.symm.trans h2

/-- The validation loop reports the first mismatching record, offset by the
starting index. -/
theorem checkFields_mismatch :
    ∀ (rows : List (List (String × Scalar))) (i : Nat) (hi : i < rows.length)
      (firstKeys : List String) (s : Nat),
      (∀ row ∈ rows.take i, sortKeys (row.map (·.1)) = firstKeys) →
      sortKeys ((rows.get ⟨i, hi⟩).map (·.1)) ≠ firstKeys →
      checkFields firstKeys s rows =
        .error (addsMismatchMsg (s + i) firstKeys
          (sortKeys ((rows.get ⟨i, hi⟩).map (·.1)))) := by
  intro rows
  induction rows with
  | nil => intro i hi; simp at hi
  | cons row rest ih =>
      intro i hi firstKeys s hpre hat
      cases i with
      | zero =>
          simp only [List.get] at hat ⊢
          simp only [checkFields]
          rw [if_pos hat]
          simp
      | succ j =>
          have hrow : sortKeys (row.map (·.1)) = firstKeys := by
            refine hpre row ?_
            simp [List.take_succ_cons]
          simp only [List.get] at hat ⊢
          simp only [checkFields]
          rw [if_neg (by rw [hrow]; exact not_not_intro rfl)]
          have hj : j < rest.length := by simpa using hi
          have := ih j hj firstKeys (s + 1)
            (fun r hr => hpre r (by simp [List.take_succ_cons, hr]))
            hat
          rw [this]
          have harith : s + 1 + j = s + (j + 1) := by omega
          rw [harith]

end Table

/-- C8: a `Table.adds` batch in which some record's field set (compared
order-independently) differs from the first record's fails before any SQL
reaches the driver, and the error names the first mismatching record index
together with the expected and actual (sorted) field lists. -/
theorem c8_adds_field_mismatch :
    ∀ (exec : ValueHolders → ResultHeader) (tableName : String)
      (first : List (String × Scalar)) (rest : List (List (String × Scalar)))
      (i : Nat) (hi : i < rest.length),
      (∀ row ∈ rest.take i, List.Perm (row.map (·.1)) (first.map (·.1))) →
      ¬ List.Perm ((rest.get ⟨i, hi⟩).map (·.1)) (first.map (·.1)) →
      Table.adds exec tableName (first :: rest) =
        (.error (Table.addsMismatchMsg (1 + i) (Table.sortKeys (first.map (·.1)))
          (Table.sortKeys ((rest.get ⟨i, hi⟩).map (·.1)))), []) := by
  intro exec tableName first rest i hi hperm hnot
  have hpre : ∀ row ∈ rest.take i,
      Table.sortKeys (row.map (·.1)) = Table.sortKeys (first.map (·.1)) :=
    fun row hr => Table.sortKeys_eq_of_perm _ _ (hperm row hr)
  have hat : Table.sortKeys ((rest.get ⟨i, hi⟩).map (·.1)) ≠
      Table.sortKeys (first.map (·.1)) :=
    fun hc => hnot (Table.perm_of_sortKeys_eq _ _ hc)
  have hcf := Table.checkFields_mismatch rest i hi (Table.sortKeys (first.map (·.1))) 1
    hpre hat
  simp only [Table.adds, hcf]

/-- C8 witness: two single-field records with different field names fail at
record index 1 without issuing SQL. -/
theorem c8_witness :
    Table.adds (fun _ => ⟨0, none⟩) "t" [[("a", Scalar.i 1)], [("b", Scalar.i 2)]] =
      (.error "Record at index 1 has different fields. Expected: [a], Got: [b]", []) := by
  have h := c8_adds_field_mismatch (fun _ => ⟨0, none⟩) "t" [("a", Scalar.i 1)]
    [[("b", Scalar.i 2)]] 0 (by decide)
    (by intro row hr; simp at hr)
    (by
      intro hp
      have := hp.mem_iff.mp (List.mem_cons_self "b" [])
      simp at this)
  exact h

/-- C2: outside a transaction, an operation failing with a retryable
connection error on the first two attempts and succeeding on the third
returns the successful result after exactly one pool rebuild; three
retryable failures propagate the last error after that same single
rebuild; and no call ever makes more than three attempts. -/
theorem c2_retry_rebuild_protocol :
    (∀ (α : Type) (m1 m2 : String) (v : α) (op : Nat → MySQLDriver.Outcome α),
       op 1 = .failure true m1 → op 2 = .failure true m2 → op 3 = .success v →
       MySQLDriver.retryOnConnectionError false false op = ⟨.ok v, 3, 1, false⟩) ∧
    (∀ (α : Type) (m1 m2 m3 : String) (op : Nat → MySQLDriver.Outcome α),
       op 1 = .failure true m1 → op 2 = .failure true m2 → op 3 = .failure true m3 →
       MySQLDriver.retryOnConnectionError false false op = ⟨.error m3, 3, 1, true⟩) ∧
    (∀ (α : Type) (inTx dead0 : Bool) (op : Nat → MySQLDriver.Outcome α),
       (MySQLDriver.retryOnConnectionError inTx dead0 op).attempts ≤ 3) := by
  refine ⟨?_, ?_, ?_⟩
  · intro α m1 m2 v op h1 h2 h3
    simp [MySQLDriver.retryOnConnectionError, MySQLDriver.retryGo, h1, h2, h3]
  · intro α m1 m2 m3 op h1 h2 h3
    simp [MySQLDriver.retryOnConnectionError, MySQLDriver.retryGo, h1, h2, h3]
  · intro α inTx dead0 op
    cases inTx with
    | true =>
        simp only [MySQLDriver.retryOnConnectionError, if_true]
        cases op 1 <;> simp
    | false =>
        rcases h1 : op 1 with v1 | ⟨r1, m1⟩
        · simp [MySQLDriver.retryOnConnectionError, MySQLDriver.retryGo, h1]
        · cases r1
          · simp [MySQLDriver.retryOnConnectionError, MySQLDriver.retryGo, h1]
          · rcases h2 : op 2 with v2 | ⟨r2, m2⟩
            · simp [MySQLDriver.retryOnConnectionError, MySQLDriver.retryGo, h1, h2]
            · cases r2
              · simp [MySQLDriver.retryOnConnectionError, MySQLDriver.retryGo, h1, h2]
              · rcases h3 : op 3 with v3 | ⟨r3, m3⟩
                · simp [MySQLDriver.retryOnConnectionError, MySQLDriver.retryGo, h1, h2, h3]
                · cases r3 <;>
                    simp [MySQLDriver.retryOnConnectionError, MySQLDriver.retryGo,
                      h1, h2, h3]

/-- C2 witness: two `ECONNRESET` failures then a success return the value
with exactly one rebuild in three attempts. -/
theorem c2_witness :
    MySQLDriver.retryOnConnectionError false false
      (fun n => match n with
        | 1 => .failure true "ECONNRESET"
        | 2 => .failure true "ECONNRESET"
        | _ => .success (42 : Nat)) =
    ⟨.ok 42, 3, 1, false⟩ :=
  c2_retry_rebuild_protocol.1 Nat "ECONNRESET" "ECONNRESET" 42 _ rfl rfl rfl

namespace MutexLock

theorem setStore_self (st : Store) (k : String) (v : Option String) :
    setStore st k v k = v := by simp [setStore]

theorem releaseLock_self (st : Store) (k v : String) (h : st k = some v) :
    (releaseLock st k v).1 k = none := by
  simp [releaseLock, h, setStore]

theorem rmErase_lookup (rm : RenewMap) (k : String) :
    rmLookup (rmErase rm k) k = none := by
  simp only [rmLookup, rmErase]
  cases hf : (rm.filter (fun p => p.1 != k)).find? (fun p => p.1 == k) with
  | none => rfl
  | some a =>
      have hp := List.find?_some hf
      have hm := List.mem_of_find?_eq_some hf
      have hq := (List.mem_filter.mp hm).2
      simp at hp hq
      exact absurd hp hq

theorem rmInsert_lookup (rm : RenewMap) (k : String) (r : RenewRecord) :
    rmLookup (rmInsert rm k r) k = some r := by
  have h1 : (rmErase rm k).find? (fun p => p.1 == k) = none := by
    have h2 := rmErase_lookup rm k
    simp only [rmLookup] at h2
    cases hf : (rmErase rm k).find? (fun p => p.1 == k) with
    | none => rfl
    | some a => rw [hf] at h2; simp at h2
  simp only [rmLookup, rmInsert]
  rw [List.find?_append, h1]
  simp [List.find?]

/-- The renewal timer callback never changes the lease value of a record it
keeps. -/
theorem renewTick_value (r : RenewRecord) (t : Bool) (r2 : RenewRecord)
    (h : renewTick r t = some r2) : r2.value = r.value := by
  simp only [renewTick] at h
  split at h
  · simp only [Option.some.injEq] at h
    subst h
    rfl
  · split at h
    · exact Option.noConfusion h
    · simp only [Option.some.injEq] at h
      subst h
      rfl

/-- The record lookup after a run of timer firings is the record-level run
of those firings. -/
theorem applyTicks_renewRun :
    ∀ (ticks : List Bool) (rm : RenewMap) (k : String),
      rmLookup (applyTicks rm k ticks) k = renewRun (rmLookup rm k) ticks := by
  intro ticks
  induction ticks with
  | nil => intro rm k; rfl
  | cons t ts ih =>
      intro rm k
      show rmLookup (applyTicks _ k ts) k = _
      rw [ih]
      cases hl : rmLookup rm k with
      | none =>
          simp only [hl]
          rfl
      | some r0 =>
          simp only [hl]
          cases ht : renewTick r0 t with
          | some r2 =>
              simp only [ht]
              have : rmLookup (rmInsert (rmErase rm k) k r2) k = some r2 :=
                rmInsert_lookup _ _ _
              simp only [renewRun, List.foldl_cons, hl, ht]
              rw [this]
          | none =>
              simp only [ht]
              have := rmErase_lookup rm k
              simp only [renewRun, List.foldl_cons, hl, ht]
              rw [this]

theorem renewRun_none (ticks : List Bool) : renewRun none ticks = none := by
  induction ticks with
  | nil => rfl
  | cons t ts ih => simpa [renewRun] using ih

theorem startAutoRenew_value (rm : RenewMap) (k v : String) :
    ∀ r, rmLookup (startAutoRenew rm k v) k = some r → r.value = v := by
  intro r h
  cases hl : rmLookup rm k with
  | none =>
      simp only [startAutoRenew, hl] at h
      rw [rmInsert_lookup] at h
      simp only [Option.some.injEq] at h
      subst h
      rfl
  | some r0 =>
      by_cases hv : r0.value = v
      · simp only [startAutoRenew, hl, if_pos hv] at h
        simp only [hl, Option.some.injEq] at h
        subst h
        exact hv
      · simp only [startAutoRenew, hl, if_neg hv] at h
        rw [rmInsert_lookup] at h
        simp only [Option.some.injEq] at h
        subst h
        rfl

theorem applyTicks_value (ticks : List Bool) (rm : RenewMap) (k v : String)
    (h : ∀ r, rmLookup rm k = some r → r.value = v) :
    ∀ r, rmLookup (applyTicks rm k ticks) k = some r → r.value = v := by
  intro r hr
  rw [applyTicks_renewRun] at hr
  cases hl : rmLookup rm k with
  | none =>
      rw [hl, renewRun_none] at hr
      exact Option.noConfusion hr
  | some r0 =>
      have hv0 := h r0 hl
      rw [hl] at hr
      clear hl h
      induction ticks generalizing r0 with
      | nil =>
          simp only [renewRun, List.foldl_nil, Option.some.injEq] at hr
          subst hr
          exact hv0
      | cons t ts ih =>
          simp only [renewRun, List.foldl_cons] at hr
          cases ht : renewTick r0 t with
          | none =>
              rw [ht] at hr
              have hn : renewRun none ts = none := renewRun_none ts
              simp only [renewRun] at hn
              rw [hn] at hr
              exact Option.noConfusion hr
          | some r2 =>
              rw [ht] at hr
              exact ih r2 hr (renewTick_value r0 t r2 ht ▸ hv0)

theorem stopAutoRenew_value (rm : RenewMap) (k v : String) :
    ∀ r, rmLookup (stopAutoRenew rm k v) k = some r → r.value ≠ v := by
  intro r h
  cases hl : rmLookup rm k with
  | none =>
      simp only [stopAutoRenew, hl] at h
      exact Option.noConfusion h
  | some r0 =>
      by_cases hv : r0.value = v
      · simp only [stopAutoRenew, hl, if_pos hv] at h
        rw [rmErase_lookup] at h
        exact Option.noConfusion h
      · simp only [stopAutoRenew, hl, if_neg hv] at h
        simp only [hl, Option.some.injEq] at h
        subst h
        exact hv

theorem stopAutoRenew_clears (rm : RenewMap) (k v : String)
    (h : ∀ r, rmLookup rm k = some r → r.value = v) :
    rmLookup (stopAutoRenew rm k v) k = none := by
  cases hl : rmLookup rm k with
  | none => simp only [stopAutoRenew, hl]
  | some r0 =>
      simp only [stopAutoRenew, hl, if_pos (h r0 hl)]
      exact rmErase_lookup rm k

end MutexLock

/-- C1: acquisition is one atomic set-if-not-exists, so of two concurrent
`safeRun` calls on the same lock key at most one acquires (whatever the
interleaving, the two atomic SET NX commands execute in some order and the
second sees the key); the loser returns `ok := false` immediately, with
exactly one cache command issued, no state change, and no task result. -/
theorem c1_at_most_one_acquires :
    (∀ (st : MutexLock.Store) (k v1 v2 : String),
       (MutexLock.acquire st k v1).2 = true →
       (MutexLock.acquire (MutexLock.acquire st k v1).1 k v2).2 = false) ∧
    (∀ (ε α : Type) (st : MutexLock.Store) (rm : MutexLock.RenewMap) (key : String)
       (opts : MutexLock.SafeRunOptions) (lockValue w : String) (ticks : List Bool)
       (task : Except ε α),
       st (MutexLock.buildLockKey key (opts.pfx.getD MutexLock.KEY_PREFIX)) = some w →
       MutexLock.safeRun st rm key opts lockValue ticks task =
         (st, rm, .ok ⟨false, none⟩,
          [.setNX (MutexLock.buildLockKey key (opts.pfx.getD MutexLock.KEY_PREFIX))
            lockValue (MutexLock.normalizeTtl opts.ttlMs)])) := by
  constructor
  · intro st k v1 v2 h1
    cases hk : st k with
    | some w => simp [MutexLock.acquire, hk] at h1
    | none => simp [MutexLock.acquire, hk, MutexLock.setStore]
  · intro ε α st rm key opts lockValue w ticks task hlk
    have hacq : MutexLock.acquire st
        (MutexLock.buildLockKey key (opts.pfx.getD MutexLock.KEY_PREFIX)) lockValue =
        (st, false) := by
      simp [MutexLock.acquire, hlk]
    simp only [MutexLock.safeRun, hacq]

/-- C1 witness: with the key already held, the losing call returns
`ok := false` with a single SET NX command, and the at-most-one property
holds at an initially free key. -/
theorem c1_witness :
    ((MutexLock.acquire (fun _ => none) "k" "a").2 = true ∧
     (MutexLock.acquire (MutexLock.acquire (fun _ => none) "k" "a").1 "k" "b").2 = false) ∧
    MutexLock.safeRun (ε := String) (fun _ => some "other") [] "job" {} "lv" [] (.ok (1 : Nat)) =
      ((fun _ => some "other"), [], .ok ⟨false, none⟩,
       [.setNX (MutexLock.buildLockKey "job" MutexLock.KEY_PREFIX) "lv" 30000]) :=
  ⟨⟨rfl, c1_at_most_one_acquires.1 (fun _ => none) "k" "a" "b" rfl⟩,
   c1_at_most_one_acquires.2 String Nat (fun _ => some "other") [] "job" {} "lv" "other"
     [] (.ok 1) rfl⟩

/-- C5: when `safeRun` acquires the lock, then whatever the task outcome
and whatever the renewal timer observed, the returned state has the lock
key released and this lease's renewal stopped (its record removed when
auto-renew was on, and never left matching this lease's value), and the
returned value is the task result, or the task error re-thrown after that
cleanup. -/
theorem c5_saferun_cleanup :
    ∀ (ε α : Type) (st : MutexLock.Store) (rm : MutexLock.RenewMap) (key : String)
      (opts : MutexLock.SafeRunOptions) (lockValue : String) (ticks : List Bool)
      (task : Except ε α),
      st (MutexLock.buildLockKey key (opts.pfx.getD MutexLock.KEY_PREFIX)) = none →
      ((MutexLock.safeRun st rm key opts lockValue ticks task).1
          (MutexLock.buildLockKey key (opts.pfx.getD MutexLock.KEY_PREFIX)) = none) ∧
      (∀ r, MutexLock.rmLookup (MutexLock.safeRun st rm key opts lockValue ticks task).2.1
          (MutexLock.buildLockKey key (opts.pfx.getD MutexLock.KEY_PREFIX)) = some r →
          r.value ≠ lockValue) ∧
      (opts.autoRenew.getD MutexLock.DEFAULT_AUTO_RENEW = true →
        MutexLock.rmLookup (MutexLock.safeRun st rm key opts lockValue ticks task).2.1
          (MutexLock.buildLockKey key (opts.pfx.getD MutexLock.KEY_PREFIX)) = none) ∧
      ((MutexLock.safeRun st rm key opts lockValue ticks task).2.2.1 =
        match task with
        | .ok v => .ok ⟨true, some v⟩
        | .error e => .error e) := by
  intro ε α st rm key opts lockValue ticks task hlk
  have hacq : MutexLock.acquire st
      (MutexLock.buildLockKey key (opts.pfx.getD MutexLock.KEY_PREFIX)) lockValue =
      (MutexLock.setStore st (MutexLock.buildLockKey key (opts.pfx.getD MutexLock.KEY_PREFIX))
        (some lockValue), true) := by
    simp [MutexLock.acquire, hlk]
  refine ⟨?_, ?_, ?_, ?_⟩
  · cases task <;>
      (simp only [MutexLock.safeRun, hacq]
       exact MutexLock.releaseLock_self _ _ _ (MutexLock.setStore_self _ _ _))
  · intro r hr
    cases task <;>
      (simp only [MutexLock.safeRun, hacq] at hr
       exact MutexLock.stopAutoRenew_value _ _ _ r hr)
  · intro hauto
    cases task <;>
      (simp only [MutexLock.safeRun, hacq, hauto, if_true]
       refine MutexLock.stopAutoRenew_clears _ _ _ ?_
       refine MutexLock.applyTicks_value _ _ _ _ ?_
       exact MutexLock.startAutoRenew_value _ _ _)
  · cases task <;> simp only [MutexLock.safeRun, hacq]

/-- C5 witness: a concrete successful acquisition with one renewal firing,
with the cleanup visible in the returned state for both a returning and a
throwing task. -/
theorem c5_witness :
    ((MutexLock.safeRun (ε := String) (fun _ => none) [] "k" {} "lv" [true]
        (.ok (7 : Nat))).1
      (MutexLock.buildLockKey "k" MutexLock.KEY_PREFIX) = none) ∧
    ((MutexLock.safeRun (ε := String) (fun _ => none) [] "k" {} "lv" [true]
        (.ok (7 : Nat))).2.2.1 = .ok ⟨true, some 7⟩) ∧
    (MutexLock.rmLookup (MutexLock.safeRun (ε := String) (fun _ => none) [] "k" {} "lv"
        [true] (.ok (7 : Nat))).2.1
      (MutexLock.buildLockKey "k" MutexLock.KEY_PREFIX) = none) ∧
    ((MutexLock.safeRun (fun _ => none) [] "k" {} "lv" [] (.error "boom")).2.2.1 =
      (.error "boom" : Except String (MutexLock.SafeRunResult Nat))) := by
  refine ⟨?_, ?_, ?_, ?_⟩
  · exact (c5_saferun_cleanup String Nat (fun _ => none) [] "k" {} "lv" [true]
      (.ok 7) rfl).1
  · exact (c5_saferun_cleanup String Nat (fun _ => none) [] "k" {} "lv" [true]
      (.ok 7) rfl).2.2.2
  · exact (c5_saferun_cleanup String Nat (fun _ => none) [] "k" {} "lv" [true]
      (.ok 7) rfl).2.2.1 rfl
  · exact (c5_saferun_cleanup String Nat (fun _ => none) [] "k" {} "lv" []
      (.error "boom") rfl).2.2.2

/-- C4: the renewal timer interval is `max(1000 ms, floor(ttl × ratio))`
with default ratio one half (TTL 5000 ms renews every 2500 ms, a small TTL
clamps to 1000 ms); a successful extend resets the failure counter to
zero; three consecutive failed extends stop renewal and remove the
renewal record from the map, permanently; and the renewal outcomes never
change the task result `safeRun` returns. -/
theorem c4_renewal_policy :
    (MutexLock.renewInterval 5000 MutexLock.DEFAULT_RENEW_FRAC = 2500) ∧
    (MutexLock.renewInterval 1500 MutexLock.DEFAULT_RENEW_FRAC = 1000) ∧
    (∀ (ttl : Nat) (frac : ℚ),
       (MutexLock.MIN_RENEW_INTERVAL_MS : ℤ) ≤ MutexLock.renewInterval ttl frac) ∧
    (∀ r : MutexLock.RenewRecord,
       MutexLock.renewTick r true = some ⟨r.value, 0⟩) ∧
    (∀ r : MutexLock.RenewRecord,
       MutexLock.renewRun (some r) [false, false, false] = none) ∧
    (∀ ticks : List Bool, MutexLock.renewRun none ticks = none) ∧
    (∀ (rm : MutexLock.RenewMap) (k : String),
       MutexLock.rmLookup (MutexLock.applyTicks rm k [false, false, false]) k = none) ∧
    (∀ (ε α : Type) (st : MutexLock.Store) (rm : MutexLock.RenewMap) (key : String)
       (opts : MutexLock.SafeRunOptions) (lockValue : String) (ticks : List Bool)
       (task : Except ε α),
       (MutexLock.safeRun st rm key opts lockValue ticks task).2.2.1 =
         (MutexLock.safeRun st rm key opts lockValue [] task).2.2.1) := by
  have hnone : ∀ ticks : List Bool, MutexLock.renewRun none ticks = none :=
    MutexLock.renewRun_none
  have hthree : ∀ r : MutexLock.RenewRecord,
      MutexLock.renewRun (some r) [false, false, false] = none := by
    intro r
    rcases r with ⟨v, c⟩
    rcases c with _ | _ | n
    · rfl
    · rfl
    · have h3 : n + 2 + 1 ≥ 3 := by omega
      simp [MutexLock.renewRun, MutexLock.renewTick, MutexLock.MAX_RENEW_FAILURES, h3]
  refine ⟨?_, ?_, ?_, ?_, hthree, hnone, ?_, ?_⟩
  · show max (1000 : ℤ) ⌊(5000 : ℚ) * (1 / 2)⌋ = 2500
    norm_num
  · show max (1000 : ℤ) ⌊(1500 : ℚ) * (1 / 2)⌋ = 1000
    norm_num
  · intro ttl frac
    exact le_max_left _ _
  · intro r
    rfl
  · intro rm k
    rw [MutexLock.applyTicks_renewRun]
    cases hl : MutexLock.rmLookup rm k with
    | none => exact hnone _
    | some r0 => exact hthree r0
  · intro ε α st rm key opts lockValue ticks task
    cases hk : st (MutexLock.buildLockKey key (opts.pfx.getD MutexLock.KEY_PREFIX)) with
    | some w =>
        have hacq : MutexLock.acquire st
            (MutexLock.buildLockKey key (opts.pfx.getD MutexLock.KEY_PREFIX)) lockValue =
            (st, false) := by simp [MutexLock.acquire, hk]
        simp only [MutexLock.safeRun, hacq]
    | none =>
        have hacq : MutexLock.acquire st
            (MutexLock.buildLockKey key (opts.pfx.getD MutexLock.KEY_PREFIX)) lockValue =
            (MutexLock.setStore st
              (MutexLock.buildLockKey key (opts.pfx.getD MutexLock.KEY_PREFIX))
              (some lockValue), true) := by simp [MutexLock.acquire, hk]
        cases task <;> simp only [MutexLock.safeRun, hacq]

end NT
